import Mathlib

/-!
# Verification of the easy-csv editable-grid core

A shallow embedding of the repository's grid state core:

* the mutation / undo-redo engine (`useGridStore`, `applyMutation`, `undo`,
  `redo`, `beginBatch`, `commitBatch`);
* the filter predicate evaluator (`src/renderer/state/filtering.ts`);
* the column type inference engine (`inferColumnProfiles`).

JavaScript runtime conventions used by the embedding:

* JS strings are modeled as Lean `String`; `trim`, `toLowerCase` and
  `includes` are modeled for the ASCII range the code operates on.
* JS numbers that arise from parsing decimal literals are modeled as exact
  rationals (`ℚ`).  Every numeric value the engine manipulates comes from a
  decimal literal, and double rounding is not observable in any property
  treated here; the `Number.isFinite` overflow check is modeled by the
  `2 ^ 1024` magnitude bound of IEEE doubles.
* JS array index assignment past the end of an array extends the array;
  intermediate holes read back as `undefined`, which this code only ever
  observes through `?? ''` (giving `''`) or through length.  Cell holes are
  modeled by the distinguished value `Cell.undef`; holes in the `string[]`
  header array and hole rows are modeled by `""` and `[]`, the values they
  stringify to at every read site of this program.
* `Date.now()` is an explicit `now : ℤ` argument (milliseconds).
-/

namespace EasyCsv

/-- JS whitespace characters recognised by `\s` and `trim` (ASCII range). -/
def isJsSpace (c : Char) : Bool :=
  c = ' ' || c = '\t' || c = '\n' || c = '\r' || c = '\x0b' || c = '\x0c'

/-- JS line terminators, which the regex `.` does not match. -/
def isLineTerm (c : Char) : Bool :=
  c = '\n' || c = '\r' || c = Char.ofNat 0x2028 || c = Char.ofNat 0x2029

/-- List-level trim: drop leading whitespace, then trailing whitespace. -/
def trimL (p : Char → Bool) (l : List Char) : List Char :=
  ((l.dropWhile p).reverse.dropWhile p).reverse

/-- `String.prototype.trim` (the code only feeds it ASCII whitespace). -/
def jsTrim (s : String) : String :=
  String.mk (trimL isJsSpace s.toList)

/-- `String.prototype.toLowerCase`, adequate for the ASCII data handled here. -/
def jsToLower (s : String) : String :=
  String.mk (s.toList.map Char.toLower)

/-- `hay.includes(needle)`: contiguous substring containment. -/
def jsIncludes (hay needle : String) : Bool :=
  decide (needle.toList <:+: hay.toList)

/-- Decimal value of a digit list (most significant first). -/
def digitsVal (ds : List Char) : ℕ :=
  ds.foldl (fun a c => a * 10 + (c.toNat - 48)) 0

/-- Left-pad a numeral with zeros to width `w`. -/
def padZeros (s : String) (w : ℕ) : String :=
  String.mk (List.replicate (w - s.length) '0') ++ s

/--
`String(n)` for a JS number, on the exact-rational model: integers print as
signed decimal numerals, and values with a terminating decimal expansion
print with their shortest exact fraction part — which is what JS prints for
every value produced by this program's parsers.  (JS exponent notation for
magnitudes ≥ 1e21 and non-terminating binary expansions are outside the
data treated here; the final fallback is never reached by parsed values.)
-/
def jsNumToString (q : ℚ) : String :=
  let sign := if q < 0 then "-" else ""
  let a := q.num.natAbs
  let d := q.den
  if d = 1 then sign ++ Nat.repr a
  else
    match (List.range 20).find? (fun k => (a * 10 ^ (k + 1)) % d = 0) with
    | some k =>
      let w := k + 1
      let scaled := a * 10 ^ w / d
      sign ++ Nat.repr (scaled / 10 ^ w) ++ "." ++ padZeros (Nat.repr (scaled % 10 ^ w)) w
    | none => sign ++ Nat.repr (a / d)

/-- Cell values: `CellValue = string | number | null`, plus the `undefined`
holes that out-of-range JS index assignment creates inside a row. -/
inductive Cell where
  | str (s : String)
  | num (q : ℚ)
  | null
  | undef
deriving DecidableEq, Repr

/-- `String(cell ?? '')` — also the meaning of the
`current === null || current === undefined ? '' : String(current)` guard. -/
def cellToStr : Cell → String
  | Cell.str s => s
  | Cell.num q => jsNumToString q
  | Cell.null => ""
  | Cell.undef => ""

/-- Case-insensitive containment: `String(cell ?? '').toLowerCase().includes(v.toLowerCase())`. -/
def matchContains (cell : Cell) (filterValue : String) : Bool :=
  jsIncludes (jsToLower (cellToStr cell)) (jsToLower filterValue)

/-!
## Number parsing

`NUMBER_RE = ^[-+]?(?:\d+\.?\d*|\.\d+)(?:[eE][-+]?\d+)?$` followed by
`Number(value)` and a `Number.isFinite` check.  `parseNumLit` is a direct
recogniser for that regex which simultaneously computes the exact decimal
value of the literal (which is what `Number` evaluates to, modulo double
rounding that no property here observes).
-/

/-- Parse the optional exponent suffix `(?:[eE][-+]?\d+)?$`. -/
def parseExpSuffix : List Char → Option ℤ
  | [] => some 0
  | c :: rest =>
    if c = 'e' || c = 'E' then
      let (sgn, rest') :=
        match rest with
        | '+' :: r => ((1 : ℤ), r)
        | '-' :: r => ((-1 : ℤ), r)
        | r => ((1 : ℤ), r)
      let ds := rest'.takeWhile Char.isDigit
      if ds.length = 0 ∨ ds.length ≠ rest'.length then none
      else some (sgn * (digitsVal ds : ℤ))
    else none

/-- Recognise `NUMBER_RE` on a whole string and return its exact decimal value. -/
def parseNumLit (s : String) : Option ℚ :=
  let cs := s.toList
  let (sgn, cs) :=
    match cs with
    | '+' :: r => ((1 : ℚ), r)
    | '-' :: r => ((-1 : ℚ), r)
    | r => ((1 : ℚ), r)
  let intDs := cs.takeWhile Char.isDigit
  let afterInt := cs.drop intDs.length
  let mantissa? : Option (ℚ × List Char) :=
    if intDs.length ≠ 0 then
      -- `\d+\.?\d*`
      match afterInt with
      | '.' :: r =>
        let fracDs := r.takeWhile Char.isDigit
        some ((digitsVal intDs : ℚ) + (digitsVal fracDs : ℚ) / 10 ^ fracDs.length,
              r.drop fracDs.length)
      | r => some ((digitsVal intDs : ℚ), r)
    else
      -- `\.\d+`
      match afterInt with
      | '.' :: r =>
        let fracDs := r.takeWhile Char.isDigit
        if fracDs.length = 0 then none
        else some ((digitsVal fracDs : ℚ) / 10 ^ fracDs.length, r.drop fracDs.length)
      | _ => none
  match mantissa? with
  | none => none
  | some (m, rest) =>
    match parseExpSuffix rest with
    | none => none
    | some e => some (sgn * m * (10 : ℚ) ^ e)

/-- `Number.isFinite` on the exact model: doubles overflow at
`2 ^ 1024 = (2 ^ 128) ^ 8`, and `|q| < 2 ^ 1024` is stated on the
numerator/denominator pair so that it evaluates by integer arithmetic. -/
def jsIsFinite (q : ℚ) : Bool :=
  decide (q.num.natAbs < (2 ^ 128) ^ 8 * q.den)

/-!
## Date parsing

`ISO_DATE_RE` — four year digits, then one-or-two month and day digits with
a dash-or-slash separator, then an optional `[T ][\d:.+-Z]+` time — followed by
`Date.parse` on the slash-normalised string.  `Date.parse` is modeled for the
shapes this regex admits: a civil date validated against the real calendar
(invalid month/day gives `NaN`, hence `none`), valued in milliseconds since
the epoch; the local timezone is taken to be UTC, and the engine-lenient
time component is modeled for the canonical `hh:mm[:ss[.fff]][Z]` forms.
No claim in this development observes a time component.
-/

/-- The character class `[\d:.+-Z]` (note `+-Z` is the range U+002B–U+005A). -/
def isTimeClassChar (c : Char) : Bool :=
  c.isDigit || c = ':' || c = '.' || ('+' ≤ c && c ≤ 'Z')

/-- Gregorian leap year. -/
def isLeapYear (y : ℕ) : Bool :=
  (y % 4 = 0 && y % 100 ≠ 0) || y % 400 = 0

/-- Days in a month of the proleptic Gregorian calendar. -/
def daysInMonth (y m : ℕ) : ℕ :=
  if m = 2 then (if isLeapYear y then 29 else 28)
  else if m = 4 ∨ m = 6 ∨ m = 9 ∨ m = 11 then 30
  else 31

/-- Days from the epoch 1970-01-01 to the civil date `y-m-d` (Hinnant's
`days_from_civil` algorithm). -/
def civilDays (y m d : ℕ) : ℤ :=
  let yAdj : ℤ := (y : ℤ) - (if m ≤ 2 then 1 else 0)
  let era : ℤ := Int.fdiv yAdj 400
  let yoe : ℤ := yAdj - era * 400
  let mp : ℤ := ((m : ℤ) + 9) % 12
  let doy : ℤ := (153 * mp + 2) / 5 + (d : ℤ) - 1
  let doe : ℤ := yoe * 365 + yoe / 4 - yoe / 100 + doy
  era * 146097 + doe - 719468

/-- All-digit check plus decimal value. -/
def natOfDigits? (s : String) : Option ℕ :=
  if s.length ≠ 0 ∧ s.toList.all Char.isDigit then some (digitsVal s.toList) else none

/-- Time-of-day component in milliseconds (`hh:mm[:ss[.fff]]` with optional
trailing `Z`). -/
def parseTimeMs (t : String) : Option ℤ :=
  let core :=
    match t.toList.reverse with
    | 'Z' :: r => String.mk r.reverse
    | _ => t
  let secondsMs (s : String) : Option ℕ :=
    match s.splitOn "." with
    | [ss] => (natOfDigits? ss).bind fun sv =>
        if ss.length = 2 ∧ sv < 60 then some (sv * 1000) else none
    | [ss, ff] => (natOfDigits? ss).bind fun sv =>
        (natOfDigits? ff).bind fun fv =>
          if ss.length = 2 ∧ sv < 60 ∧ ff.length ≤ 3 then
            some (sv * 1000 + fv * 10 ^ (3 - ff.length))
          else none
    | _ => none
  match core.splitOn ":" with
  | [h, m] => (natOfDigits? h).bind fun hv => (natOfDigits? m).bind fun mv =>
      if h.length ≤ 2 ∧ hv < 24 ∧ m.length = 2 ∧ mv < 60 then
        some ((hv * 3600000 + mv * 60000 : ℕ) : ℤ)
      else none
  | [h, m, s] => (natOfDigits? h).bind fun hv => (natOfDigits? m).bind fun mv =>
      (secondsMs s).bind fun sms =>
        if h.length ≤ 2 ∧ hv < 24 ∧ m.length = 2 ∧ mv < 60 then
          some ((hv * 3600000 + mv * 60000 + sms : ℕ) : ℤ)
        else none
  | _ => none

/-- Recognise `ISO_DATE_RE`, returning year, month, day and the optional raw
time component.  The separator may be `-` or `/` (the code normalises `/` to
`-` before `Date.parse`, so both parse alike). -/
def parseIsoShape (s : String) : Option (ℕ × ℕ × ℕ × Option String) :=
  let cs := s.toList
  let yDs := cs.takeWhile Char.isDigit
  if yDs.length ≠ 4 then none
  else
    match cs.drop 4 with
    | sep1 :: r1 =>
      if sep1 = '-' || sep1 = '/' then
        let mDs := r1.takeWhile Char.isDigit
        if mDs.length = 1 ∨ mDs.length = 2 then
          match r1.drop mDs.length with
          | sep2 :: r2 =>
            if sep2 = '-' || sep2 = '/' then
              let dDs := r2.takeWhile Char.isDigit
              if dDs.length = 1 ∨ dDs.length = 2 then
                match r2.drop dDs.length with
                | [] => some (digitsVal yDs, digitsVal mDs, digitsVal dDs, none)
                | t :: r3 =>
                  if (t = 'T' || t = ' ') && !r3.isEmpty && r3.all isTimeClassChar then
                    some (digitsVal yDs, digitsVal mDs, digitsVal dDs, some (String.mk r3))
                  else none
              else none
            else none
          | [] => none
        else none
      else none
    | [] => none

/-- `Date.parse` on a string already known to match `ISO_DATE_RE` (after
slash normalisation): milliseconds since the epoch, `none` for `NaN`. -/
def jsDateParse (s : String) : Option ℤ :=
  match parseIsoShape s with
  | none => none
  | some (y, m, d, time?) =>
    if 1 ≤ m ∧ m ≤ 12 ∧ 1 ≤ d ∧ d ≤ daysInMonth y m then
      match time? with
      | none => some (civilDays y m d * 86400000)
      | some t => (parseTimeMs t).map (fun ms => civilDays y m d * 86400000 + ms)
    else none

/-!
## Column profiles

`ColumnProfile` (shared types): the inferred type tag with its confidence
and per-column statistics.  The `dateStats` ISO rendering (`toISOString`) is
presentation-only; the stats are modeled as the raw epoch values they render.
-/

inductive ColumnInferredType where
  | number
  | date
  | boolean
  | mixed
  | empty
  | string
deriving DecidableEq, Repr

structure ParseableCount where
  number : ℕ
  date : ℕ
  boolean : ℕ
deriving DecidableEq, Repr

structure NumericStats where
  min : ℚ
  max : ℚ
  mean : ℚ
deriving DecidableEq, Repr

structure DateStats where
  minMs : ℤ
  maxMs : ℤ
deriving DecidableEq, Repr

structure ColumnProfile where
  inferredType : ColumnInferredType
  confidence : ℚ
  nonNullCount : ℕ
  nullCount : ℕ
  parseableCount : ParseableCount
  invalidExamples : List String
  numericStats : Option NumericStats := none
  dateStats : Option DateStats := none
deriving DecidableEq, Repr

namespace Filtering

/-- `parseNumber` of `filtering.ts`: trim, regex-test, `Number`, finiteness. -/
def parseNumber (value : String) : Option ℚ :=
  match parseNumLit (jsTrim value) with
  | none => none
  | some q => if jsIsFinite q then some q else none

/-- `parseDate` of `filtering.ts`: trim, regex-test, `Date.parse` on the
slash-normalised string, `NaN` check. -/
def parseDate (value : String) : Option ℤ :=
  jsDateParse (jsTrim value)

/-- The comparator alternation `(>=|<=|>|<|=)` of the query grammars. -/
inductive CmpOp where
  | gt
  | ge
  | lt
  | le
  | eq
deriving DecidableEq, Repr

/-- `query.match(/^(>=|<=|>|<|=)\s*(.+)$/)`: comparator and operand text.
Alternation order makes `>=`/`<=` win over `>`/`<`; `\s*` backtracks one
space when the operand would otherwise be empty; `.` excludes line
terminators. -/
def jsMatchOp (s : String) : Option (CmpOp × String) :=
  let cs := s.toList
  let opSplit : Option (CmpOp × List Char) :=
    match cs with
    | '>' :: '=' :: r => some (CmpOp.ge, r)
    | '<' :: '=' :: r => some (CmpOp.le, r)
    | '>' :: r => some (CmpOp.gt, r)
    | '<' :: r => some (CmpOp.lt, r)
    | '=' :: r => some (CmpOp.eq, r)
    | _ => none
  match opSplit with
  | none => none
  | some (op, r) =>
    if r.isEmpty then none
    else
      let rest := r.dropWhile isJsSpace
      let grp := if rest.isEmpty then [' '] else rest
      if grp.all (fun c => !isLineTerm c) then some (op, String.mk grp) else none

/-- `query.match(/^(.+)\.\.(.+)$/)`: both range endpoints, with the greedy
first group taking the rightmost `..` admissible for nonempty dot-only
groups. -/
def jsMatchBetween (s : String) : Option (String × String) :=
  let cs := s.toList
  let n := cs.length
  let ok (i : ℕ) : Bool :=
    decide (1 ≤ i ∧ i + 2 < n) &&
    (cs.drop i).take 2 = ['.', '.'] &&
    (cs.take i).all (fun c => !isLineTerm c) &&
    (cs.drop (i + 2)).all (fun c => !isLineTerm c)
  match ((List.range n).reverse).find? ok with
  | some i => some (String.mk (cs.take i), String.mk (cs.drop (i + 2)))
  | none => none

/-- `query.match(/^(before|after|on)\s+(.+)$/i)`: lowered keyword and operand
text.  The keywords are mutually prefix-free, so trying the alternatives in
order is exact. -/
def jsMatchKeyword (s : String) : Option (String × String) :=
  let lower := (jsToLower s).toList
  let cs := s.toList
  let tryKw (kw : String) : Option (String × String) :=
    if kw.toList.isPrefixOf lower then
      let after := cs.drop kw.length
      let sp := after.takeWhile isJsSpace
      if sp.isEmpty then none
      else
        let rest := after.drop sp.length
        let grp := if rest.isEmpty then (if 2 ≤ sp.length then [' '] else []) else rest
        if !grp.isEmpty && grp.all (fun c => !isLineTerm c) then
          some (kw, String.mk grp)
        else none
    else none
  match tryKw "before" with
  | some r => some r
  | none =>
    match tryKw "after" with
    | some r => some r
    | none => tryKw "on"

/-- `evaluateNumericQuery`: `boolean | null` becomes `Option Bool` with
`none` playing the role of `null`. -/
def evaluateNumericQuery (cell : Cell) (query : String) : Option Bool :=
  let raw := jsTrim (cellToStr cell)
  match parseNumber raw with
  | none => some false
  | some cellValue =>
    let trimmedQuery := jsTrim query
    if trimmedQuery.isEmpty then some true
    else
      match jsMatchBetween trimmedQuery with
      | some (lo, hi) =>
        match parseNumber lo, parseNumber hi with
        | some mn, some mx => some (decide (mn ≤ cellValue ∧ cellValue ≤ mx))
        | _, _ => none
      | none =>
        match jsMatchOp trimmedQuery with
        | some (op, operandText) =>
          match parseNumber operandText with
          | none => none
          | some operand =>
            match op with
            | CmpOp.gt => some (decide (operand < cellValue))
            | CmpOp.ge => some (decide (operand ≤ cellValue))
            | CmpOp.lt => some (decide (cellValue < operand))
            | CmpOp.le => some (decide (cellValue ≤ operand))
            | CmpOp.eq => some (decide (cellValue = operand))
        | none =>
          match parseNumber trimmedQuery with
          | some exact => some (decide (cellValue = exact))
          | none => none

/-- `evaluateDateQuery`, same shape with the date grammar (range, keyword,
comparator, bare date). -/
def evaluateDateQuery (cell : Cell) (query : String) : Option Bool :=
  let raw := jsTrim (cellToStr cell)
  match parseDate raw with
  | none => some false
  | some cellValue =>
    let trimmedQuery := jsTrim query
    if trimmedQuery.isEmpty then some true
    else
      match jsMatchBetween trimmedQuery with
      | some (lo, hi) =>
        match parseDate lo, parseDate hi with
        | some mn, some mx => some (decide (mn ≤ cellValue ∧ cellValue ≤ mx))
        | _, _ => none
      | none =>
        match jsMatchKeyword trimmedQuery with
        | some (kw, operandText) =>
          match parseDate operandText with
          | none => none
          | some operand =>
            if kw = "before" then some (decide (cellValue < operand))
            else if kw = "after" then some (decide (operand < cellValue))
            else some (decide (cellValue = operand))
        | none =>
          match jsMatchOp trimmedQuery with
          | some (op, operandText) =>
            match parseDate operandText with
            | none => none
            | some operand =>
              match op with
              | CmpOp.gt => some (decide (operand < cellValue))
              | CmpOp.ge => some (decide (operand ≤ cellValue))
              | CmpOp.lt => some (decide (cellValue < operand))
              | CmpOp.le => some (decide (cellValue ≤ operand))
              | CmpOp.eq => some (decide (cellValue = operand))
          | none =>
            match parseDate trimmedQuery with
            | some exact => some (decide (cellValue = exact))
            | none => none

/-- `evaluateCellFilter`: empty query matches; numeric/date columns use the
typed evaluators with containment fallback on `null`; all other columns use
containment. -/
def evaluateCellFilter (cell : Cell) (filterValue : String)
    (profile : Option ColumnProfile) : Bool :=
  if (jsTrim filterValue).isEmpty then true
  else if profile.map ColumnProfile.inferredType = some ColumnInferredType.number then
    match evaluateNumericQuery cell filterValue with
    | none => matchContains cell filterValue
    | some r => r
  else if profile.map ColumnProfile.inferredType = some ColumnInferredType.date then
    match evaluateDateQuery cell filterValue with
    | none => matchContains cell filterValue
    | some r => r
  else matchContains cell filterValue

/-- The numeric query grammar's "fails to parse under every form" condition,
read off the evaluator's `null` cascade: the form whose pattern applies has
an unparseable operand (range, comparator, then bare number). -/
def numericQueryUnparseable (query : String) : Bool :=
  let trimmedQuery := jsTrim query
  if trimmedQuery.isEmpty then false
  else
    match jsMatchBetween trimmedQuery with
    | some (lo, hi) => parseNumber lo = none || parseNumber hi = none
    | none =>
      match jsMatchOp trimmedQuery with
      | some (_, operandText) => parseNumber operandText = none
      | none => parseNumber trimmedQuery = none

/-- The date query grammar's "fails to parse under every form" condition,
read off the evaluator's `null` cascade (range, keyword, comparator, bare
date). -/
def dateQueryUnparseable (query : String) : Bool :=
  let trimmedQuery := jsTrim query
  if trimmedQuery.isEmpty then false
  else
    match jsMatchBetween trimmedQuery with
    | some (lo, hi) => parseDate lo = none || parseDate hi = none
    | none =>
      match jsMatchKeyword trimmedQuery with
      | some (_, operandText) => parseDate operandText = none
      | none =>
        match jsMatchOp trimmedQuery with
        | some (_, operandText) => parseDate operandText = none
        | none => parseDate trimmedQuery = none

end Filtering

/-!
## The mutation / undo-redo engine (`useGridStore`)

The store state is embedded without the tab-management fields (`tabs`,
`activeTabId`, `_tabSnapshots`) and the filter map, which no treated claim
touches and which no mutation/undo/batch operation reads or writes.
`Date.now()` becomes an explicit `now` argument at every site that reads it.
-/

/-- JS array index assignment `l[i] = v`: in range it overwrites; past the
end it extends the array, holes filled with `filler` (the model of what the
`undefined` holes read back as at this program's read sites). -/
def listSetExtend {α : Type} (l : List α) (i : ℕ) (v : α) (filler : α) : List α :=
  if i < l.length then l.set i v
  else l ++ List.replicate (i - l.length) filler ++ [v]

/-- The start-index clamping of `Array.prototype.splice` (negative indices
count from the end; this development only passes nonnegative starts). -/
def jsSpliceStart (len : ℕ) (start : ℤ) : ℕ :=
  if start < 0 then ((len : ℤ) + start).toNat else min start.toNat len

/-- `l.splice(start, deleteCount, ...items)`: returns the removed slice and
the resulting array. -/
def jsSplice {α : Type} (l : List α) (start deleteCount : ℤ) (items : List α) :
    List α × List α :=
  let s := jsSpliceStart l.length start
  let d := min (max deleteCount 0).toNat (l.length - s)
  ((l.drop s).take d, l.take s ++ items ++ l.drop (s + d))

/-- The `'\n' | '\r\n'` newline kind. -/
inductive Newline where
  | lf
  | crlf
deriving DecidableEq, Repr

/-- A table snapshot: headers, rows, delimiter, newline kind, optional file
path (`undefined` and `null` both map to `none`; every reachable state
normalises through `?? null`). -/
structure Snapshot where
  headers : List String
  rows : List (List Cell)
  delimiter : String
  newline : Newline
  filePath : Option String
deriving DecidableEq, Repr

/-- An undo/redo history entry. -/
structure UndoEntry where
  snapshot : Snapshot
  label : String
  timestamp : ℤ
  coalesceKey : Option String
deriving DecidableEq, Repr

/-- `CsvMeta`. -/
structure Meta where
  rowCount : ℕ
  columnCount : ℕ
deriving DecidableEq, Repr

/-- The live grid state (the flat active-tab fields of `GridState`). -/
structure GridState extends Snapshot where
  dirty : Bool
  meta : Meta
  undoStack : List UndoEntry
  redoStack : List UndoEntry
  batchDepth : ℤ
  batchLabel : Option String
  batchSnapshot : Option Snapshot
deriving DecidableEq, Repr

def MAX_UNDO_HISTORY : ℕ := 50

def COALESCE_WINDOW_MS : ℤ := 2000

/-- `cloneSnapshot`: a deep copy, which under value semantics is the
identity (the `?? null` on `filePath` is the identity on the `Option`
model). -/
def cloneSnapshot (s : Snapshot) : Snapshot :=
  { headers := s.headers
    rows := s.rows.map (fun row => row)
    delimiter := s.delimiter
    newline := s.newline
    filePath := s.filePath }

/-- `trimStack`: drop the oldest entries (front of the array) beyond the
cap. -/
def trimStack (stack : List UndoEntry) : List UndoEntry :=
  if MAX_UNDO_HISTORY < stack.length then
    stack.drop (stack.length - MAX_UNDO_HISTORY)
  else stack

/-- A session state freshly loaded from a document (`openTab` / `setData`:
empty history, no batch in flight). -/
def initialState (snap : Snapshot) : GridState :=
  { toSnapshot := snap
    dirty := false
    meta := { rowCount := snap.rows.length, columnCount := snap.headers.length }
    undoStack := []
    redoStack := []
    batchDepth := 0
    batchLabel := none
    batchSnapshot := none }

/-- The central mutation helper `applyMutation`: batch accumulation when the
depth is positive, else coalescing against the top undo entry, else a plain
push; the non-batch branches clear the redo stack. -/
def applyMutation (label : String) (mutator : Snapshot → Snapshot)
    (coalesceKey : Option String) (now : ℤ) (state : GridState) : GridState :=
  let next := mutator (cloneSnapshot state.toSnapshot)
  let newMeta : Meta := { rowCount := next.rows.length, columnCount := next.headers.length }
  if 0 < state.batchDepth then
    { state with
      toSnapshot := next
      dirty := true
      batchSnapshot := some (state.batchSnapshot.getD (cloneSnapshot state.toSnapshot))
      meta := newMeta }
  else
    let pushed : GridState :=
      { state with
        toSnapshot := next
        dirty := true
        undoStack := trimStack (state.undoStack ++
          [{ snapshot := cloneSnapshot state.toSnapshot
             label := label
             timestamp := now
             coalesceKey := coalesceKey }])
        redoStack := []
        meta := newMeta }
    match coalesceKey, state.undoStack.getLast? with
    | some k, some top =>
      if top.coalesceKey = some k ∧ now - top.timestamp < COALESCE_WINDOW_MS then
        { state with
          toSnapshot := next
          dirty := true
          undoStack := state.undoStack.dropLast ++ [{ top with timestamp := now }]
          redoStack := []
          meta := newMeta }
      else pushed
    | _, _ => pushed

/-- `draft.headers.length || (draft.rows[0]?.length ?? 0)` — the column
count used when inserting a fresh row. -/
def snapColumnCount (draft : Snapshot) : ℕ :=
  if draft.headers.length = 0 then ((draft.rows.get? 0).getD []).length
  else draft.headers.length

namespace GridState

/-- `updateCell`: identity-write guard, then a (possibly array-extending)
cell assignment under the coalescing key `cell:row:col`. -/
def updateCell (rowIndex columnIndex : ℕ) (value : Cell) (now : ℤ)
    (state : GridState) : GridState :=
  let current := (state.rows.get? rowIndex).bind (fun r => r.get? columnIndex)
  let currentStr :=
    match current with
    | some (Cell.str s) => s
    | some (Cell.num q) => jsNumToString q
    | _ => ""
  let isIdentity :=
    match value with
    | Cell.str t => currentStr == t
    | _ => false
  if isIdentity then state
  else
    applyMutation "Edit Cell"
      (fun draft =>
        let row := (draft.rows.get? rowIndex).getD []
        { draft with
          rows := listSetExtend draft.rows rowIndex
            (listSetExtend row columnIndex value Cell.undef) [] })
      (some ("cell:" ++ toString rowIndex ++ ":" ++ toString columnIndex)) now state

/-- `addRow`: append a row of empty strings sized to the column count. -/
def addRow (now : ℤ) (state : GridState) : GridState :=
  applyMutation "Add Row"
    (fun draft =>
      { draft with rows := draft.rows ++ [List.replicate (snapColumnCount draft) (Cell.str "")] })
    none now state

/-- `addColumn`: append a header `Column N` and an empty cell to every row. -/
def addColumn (now : ℤ) (state : GridState) : GridState :=
  applyMutation "Add Column"
    (fun draft =>
      { draft with
        headers := draft.headers ++ ["Column " ++ toString (draft.headers.length + 1)]
        rows := draft.rows.map (fun row => row ++ [Cell.str ""]) })
    none now state

/-- `insertRowAt`. -/
def insertRowAt (rowIndex : ℕ) (now : ℤ) (state : GridState) : GridState :=
  applyMutation "Insert Row"
    (fun draft =>
      { draft with
        rows := (jsSplice draft.rows rowIndex 0
          [List.replicate (snapColumnCount draft) (Cell.str "")]).2 })
    none now state

/-- `insertColumnAt`. -/
def insertColumnAt (columnIndex : ℕ) (now : ℤ) (state : GridState) : GridState :=
  applyMutation "Insert Column"
    (fun draft =>
      { draft with
        headers := (jsSplice draft.headers columnIndex 0
          ["Column " ++ toString (draft.headers.length + 1)]).2
        rows := draft.rows.map (fun row => (jsSplice row columnIndex 0 [Cell.str ""]).2) })
    none now state

/-- `removeRow`. -/
def removeRow (rowIndex : ℕ) (now : ℤ) (state : GridState) : GridState :=
  applyMutation "Delete Row"
    (fun draft => { draft with rows := (jsSplice draft.rows rowIndex 1 []).2 })
    none now state

/-- `removeColumn`: splice the header out and filter the column index out of
every row. -/
def removeColumn (columnIndex : ℕ) (now : ℤ) (state : GridState) : GridState :=
  applyMutation "Delete Column"
    (fun draft =>
      { draft with
        headers := (jsSplice draft.headers columnIndex 1 []).2
        rows := draft.rows.map (fun row =>
          (row.enum.filter (fun p => p.1 ≠ columnIndex)).map Prod.snd) })
    none now state

/-- `moveRows`: no-op when the destination falls inside
`[fromStart, fromEnd + 1]`; otherwise extract the range and reinsert it at
`toIndex − count` when `toIndex > fromStart`, else at `toIndex`. -/
def moveRows (fromStart fromEnd toIndex : ℕ) (now : ℤ) (state : GridState) : GridState :=
  let count : ℤ := (fromEnd : ℤ) - (fromStart : ℤ) + 1
  if fromStart ≤ toIndex ∧ toIndex ≤ fromEnd + 1 then state
  else
    applyMutation "Move Row(s)"
      (fun draft =>
        let extracted := (jsSplice draft.rows fromStart count []).1
        let rest := (jsSplice draft.rows fromStart count []).2
        let insertAt : ℤ := if fromStart < toIndex then (toIndex : ℤ) - count else (toIndex : ℤ)
        { draft with rows := (jsSplice rest insertAt 0 extracted).2 })
      none now state

/-- `moveColumns`: the same relocation applied to the headers and to every
row in lockstep. -/
def moveColumns (fromStart fromEnd toIndex : ℕ) (now : ℤ) (state : GridState) : GridState :=
  let count : ℤ := (fromEnd : ℤ) - (fromStart : ℤ) + 1
  if fromStart ≤ toIndex ∧ toIndex ≤ fromEnd + 1 then state
  else
    applyMutation "Move Column(s)"
      (fun draft =>
        let insertAt : ℤ := if fromStart < toIndex then (toIndex : ℤ) - count else (toIndex : ℤ)
        let extractedHeaders := (jsSplice draft.headers fromStart count []).1
        let restHeaders := (jsSplice draft.headers fromStart count []).2
        { draft with
          headers := (jsSplice restHeaders insertAt 0 extractedHeaders).2
          rows := draft.rows.map (fun row =>
            let extracted := (jsSplice row fromStart count []).1
            let rest := (jsSplice row fromStart count []).2
            (jsSplice rest insertAt 0 extracted).2) })
      none now state

/-- `updateHeader`: identity-write guard, then a (possibly array-extending)
header assignment under the coalescing key `header:col`. -/
def updateHeader (columnIndex : ℕ) (value : String) (now : ℤ)
    (state : GridState) : GridState :=
  if state.headers.get? columnIndex = some value then state
  else
    applyMutation "Edit Header"
      (fun draft => { draft with headers := listSetExtend draft.headers columnIndex value "" })
      (some ("header:" ++ toString columnIndex)) now state

end GridState

/-- Recursive worker for the global case-insensitive literal replace (the
search term is regex-escaped in the source, so it matches literally). -/
def replaceCIAux (term repl : List Char) (cs : List Char) : List Char :=
  match cs with
  | [] => []
  | c :: rest =>
    if (term.map Char.toLower).isPrefixOf ((c :: rest).map Char.toLower) then
      repl ++ replaceCIAux term repl (rest.drop (term.length - 1))
    else c :: replaceCIAux term repl rest
termination_by cs.length
decreasing_by
  · simp only [List.length_drop, List.length_cons]
    omega
  · simp only [List.length_cons]
    omega

/-- `s.replace(new RegExp(escapedTerm, 'gi'), repl)`: every case-insensitive
occurrence of the literal term replaced; the empty pattern matches at every
position boundary.  (`$`-substitution patterns in the replacement text are
not modeled; no treated claim uses them.) -/
def jsReplaceCI (s term repl : String) : String :=
  if term.isEmpty then
    String.mk (repl.toList ++ (s.toList.foldr (fun c acc => c :: (repl.toList ++ acc)) []))
  else String.mk (replaceCIAux term.toList repl.toList s.toList)

/-- The body of `replaceAll`'s match loop for one `{row, col}` coordinate:
`row = −1` targets a header.  A row index below −1 sets a non-index JS
property, which is invisible to the array contents and to every later read,
and is modeled as leaving the rows unchanged. -/
def replaceAllStep (term replacement : String) (d : Snapshot) (m : ℤ × ℕ) : Snapshot :=
  if m.1 = -1 then
    { d with
      headers := listSetExtend d.headers m.2
        (jsReplaceCI ((d.headers.get? m.2).getD "") term replacement) "" }
  else if 0 ≤ m.1 then
    let r := m.1.toNat
    let oldRow := (d.rows.get? r).getD []
    let cellStr :=
      match oldRow.get? m.2 with
      | some c => cellToStr c
      | none => ""
    { d with
      rows := listSetExtend d.rows r
        (listSetExtend oldRow m.2 (Cell.str (jsReplaceCI cellStr term replacement))
          Cell.undef) [] }
  else d

namespace GridState

/-- `replaceAll`: one history entry for the whole match list. -/
def replaceAll (term replacement : String) (matchList : List (ℤ × ℕ)) (now : ℤ)
    (state : GridState) : GridState :=
  if matchList.isEmpty then state
  else
    applyMutation "Replace All"
      (fun draft => matchList.foldl (replaceAllStep term replacement) draft)
      none now state

/-- `undo`: pop the most recent entry, install its snapshot, push the
pre-undo snapshot onto the redo stack under the popped entry's label. -/
def undo (now : ℤ) (state : GridState) : GridState :=
  match state.undoStack.getLast? with
  | none => state
  | some top =>
    { state with
      toSnapshot := top.snapshot
      dirty := true
      undoStack := state.undoStack.dropLast
      redoStack := trimStack (state.redoStack ++
        [{ snapshot := cloneSnapshot state.toSnapshot
           label := top.label
           timestamp := now
           coalesceKey := none }])
      meta := { rowCount := top.snapshot.rows.length
                columnCount := top.snapshot.headers.length } }

/-- `redo`: the symmetric pop from the redo stack back onto the undo stack. -/
def redo (now : ℤ) (state : GridState) : GridState :=
  match state.redoStack.getLast? with
  | none => state
  | some top =>
    { state with
      toSnapshot := top.snapshot
      dirty := true
      redoStack := state.redoStack.dropLast
      undoStack := trimStack (state.undoStack ++
        [{ snapshot := cloneSnapshot state.toSnapshot
           label := top.label
           timestamp := now
           coalesceKey := none }])
      meta := { rowCount := top.snapshot.rows.length
                columnCount := top.snapshot.headers.length } }

/-- `beginBatch`: increment the depth; keep the first label. -/
def beginBatch (label : String) (state : GridState) : GridState :=
  { state with
    batchDepth := state.batchDepth + 1
    batchLabel := some (state.batchLabel.getD label) }

/-- `commitBatch`: decrement; at the outermost level push the accumulated
pre-batch snapshot as a single entry (clearing the redo stack), or reset the
batch fields when nothing accumulated. -/
def commitBatch (now : ℤ) (state : GridState) : GridState :=
  let newDepth := state.batchDepth - 1
  if 0 < newDepth then { state with batchDepth := newDepth }
  else
    match state.batchSnapshot with
    | some snap =>
      { state with
        batchDepth := 0
        batchLabel := none
        batchSnapshot := none
        undoStack := trimStack (state.undoStack ++
          [{ snapshot := snap
             label := state.batchLabel.getD "Batch Edit"
             timestamp := now
             coalesceKey := none }])
        redoStack := [] }
    | none =>
      { state with
        batchDepth := 0
        batchLabel := none
        batchSnapshot := none }

end GridState

/-- The edit operations quantified over by the undo-inverse property: every
snapshot-mutating store action apart from undo/redo and batching. -/
inductive EditOp where
  | updateCell (rowIndex columnIndex : ℕ) (value : Cell)
  | updateHeader (columnIndex : ℕ) (value : String)
  | addRow
  | addColumn
  | insertRowAt (rowIndex : ℕ)
  | insertColumnAt (columnIndex : ℕ)
  | removeRow (rowIndex : ℕ)
  | removeColumn (columnIndex : ℕ)
  | moveRows (fromStart fromEnd toIndex : ℕ)
  | moveColumns (fromStart fromEnd toIndex : ℕ)
  | replaceAll (term replacement : String) (matchList : List (ℤ × ℕ))
deriving DecidableEq, Repr

/-- Dispatch an edit operation at wall-clock time `now`. -/
def applyEdit (op : EditOp) (now : ℤ) (s : GridState) : GridState :=
  match op with
  | EditOp.updateCell r c v => GridState.updateCell r c v now s
  | EditOp.updateHeader c v => GridState.updateHeader c v now s
  | EditOp.addRow => GridState.addRow now s
  | EditOp.addColumn => GridState.addColumn now s
  | EditOp.insertRowAt r => GridState.insertRowAt r now s
  | EditOp.insertColumnAt c => GridState.insertColumnAt c now s
  | EditOp.removeRow r => GridState.removeRow r now s
  | EditOp.removeColumn c => GridState.removeColumn c now s
  | EditOp.moveRows a b t => GridState.moveRows a b t now s
  | EditOp.moveColumns a b t => GridState.moveColumns a b t now s
  | EditOp.replaceAll t r m => GridState.replaceAll t r m now s

/-- A timed edit sequence, applied left to right. -/
def applyEdits (ops : List (EditOp × ℤ)) (s : GridState) : GridState :=
  ops.foldl (fun st p => applyEdit p.1 p.2 st) s

/-- A sequence of undos at the given wall-clock times. -/
def applyUndos (times : List ℤ) (s : GridState) : GridState :=
  times.foldl (fun st t => GridState.undo t st) s

/-- Every store operation, for the history-bound and redo-stack invariants. -/
inductive StoreOp where
  | edit (op : EditOp)
  | undo
  | redo
  | beginBatch (label : String)
  | commitBatch
deriving DecidableEq, Repr

/-- Dispatch a store operation at wall-clock time `now`. -/
def applyStore (op : StoreOp) (now : ℤ) (s : GridState) : GridState :=
  match op with
  | StoreOp.edit e => applyEdit e now s
  | StoreOp.undo => GridState.undo now s
  | StoreOp.redo => GridState.redo now s
  | StoreOp.beginBatch label => GridState.beginBatch label s
  | StoreOp.commitBatch => GridState.commitBatch now s

/-!
## The type inference engine (`inferColumnProfiles`)
-/

namespace Inference

def MAX_INVALID_EXAMPLES : ℕ := 3

def TYPE_THRESHOLD : ℚ := 98 / 100

/-- `toTrimmedString`. -/
def toTrimmedString (value : Cell) : String :=
  jsTrim (cellToStr value)

/-- `parseBoolean`. -/
def parseBoolean (value : String) : Option Bool :=
  let lower := jsToLower value
  if lower = "true" ∨ lower = "yes" ∨ lower = "1" then some true
  else if lower = "false" ∨ lower = "no" ∨ lower = "0" then some false
  else none

/-- `parseNumber` of the inference module (its input is already trimmed). -/
def parseNumber (value : String) : Option ℚ :=
  match parseNumLit value with
  | none => none
  | some q => if jsIsFinite q then some q else none

/-- `parseDate` of the inference module (its input is already trimmed). -/
def parseDate (value : String) : Option ℤ :=
  jsDateParse value

/-- `pickInferredType`: the ordered 0.98-threshold decision, the ≥ 0.5
mixed band, and the string fallback. -/
def pickInferredType (nonNullCount : ℕ) (parseableCount : ParseableCount) :
    ColumnInferredType × ℚ :=
  if nonNullCount = 0 then (ColumnInferredType.empty, 1)
  else
    let numberRatio : ℚ := (parseableCount.number : ℚ) / (nonNullCount : ℚ)
    let dateRatio : ℚ := (parseableCount.date : ℚ) / (nonNullCount : ℚ)
    let booleanRatio : ℚ := (parseableCount.boolean : ℚ) / (nonNullCount : ℚ)
    if TYPE_THRESHOLD ≤ numberRatio then (ColumnInferredType.number, numberRatio)
    else if TYPE_THRESHOLD ≤ dateRatio then (ColumnInferredType.date, dateRatio)
    else if TYPE_THRESHOLD ≤ booleanRatio then (ColumnInferredType.boolean, booleanRatio)
    else
      let bestRatio := max (max numberRatio dateRatio) booleanRatio
      if (1 : ℚ) / 2 ≤ bestRatio then (ColumnInferredType.mixed, bestRatio)
      else (ColumnInferredType.string, 1 - bestRatio)

/-- The per-column accumulator of `inferColumnProfiles`'s row loop. -/
structure ColAcc where
  nonNullCount : ℕ
  nullCount : ℕ
  parseableCount : ParseableCount
  invalidExamples : List String
  numericValues : List ℚ
  dateValues : List ℤ
deriving DecidableEq, Repr

def emptyAcc : ColAcc :=
  { nonNullCount := 0
    nullCount := 0
    parseableCount := { number := 0, date := 0, boolean := 0 }
    invalidExamples := []
    numericValues := []
    dateValues := [] }

/-- One iteration of the row loop for a given raw cell. -/
def accumCell (acc : ColAcc) (raw : Cell) : ColAcc :=
  let value := toTrimmedString raw
  if value.length = 0 then { acc with nullCount := acc.nullCount + 1 }
  else
    let asNumber := parseNumber value
    let asDate := parseDate value
    let asBool := parseBoolean value
    { nonNullCount := acc.nonNullCount + 1
      nullCount := acc.nullCount
      parseableCount :=
        { number := acc.parseableCount.number + (if asNumber.isSome then 1 else 0)
          date := acc.parseableCount.date + (if asDate.isSome then 1 else 0)
          boolean := acc.parseableCount.boolean + (if asBool.isSome then 1 else 0) }
      invalidExamples :=
        if asNumber = none ∧ asDate = none ∧ asBool = none ∧
            acc.invalidExamples.length < MAX_INVALID_EXAMPLES then
          acc.invalidExamples ++ [value]
        else acc.invalidExamples
      numericValues :=
        match asNumber with
        | some v => acc.numericValues ++ [v]
        | none => acc.numericValues
      dateValues :=
        match asDate with
        | some v => acc.dateValues ++ [v]
        | none => acc.dateValues }

/-- `Math.min(...values)` over a nonempty list (callers guard emptiness). -/
def qListMin (l : List ℚ) : ℚ :=
  match l with
  | [] => 0
  | x :: xs => xs.foldl min x

def qListMax (l : List ℚ) : ℚ :=
  match l with
  | [] => 0
  | x :: xs => xs.foldl max x

def zListMin (l : List ℤ) : ℤ :=
  match l with
  | [] => 0
  | x :: xs => xs.foldl min x

def zListMax (l : List ℤ) : ℤ :=
  match l with
  | [] => 0
  | x :: xs => xs.foldl max x

/-- The per-column body of `inferColumnProfiles`. -/
def inferColumn (columnIndex : ℕ) (rows : List (List Cell)) : ColumnProfile :=
  let acc := rows.foldl (fun a row => accumCell a ((row.get? columnIndex).getD Cell.undef))
    emptyAcc
  let picked := pickInferredType acc.nonNullCount acc.parseableCount
  { inferredType := picked.1
    confidence := picked.2
    nonNullCount := acc.nonNullCount
    nullCount := acc.nullCount
    parseableCount := acc.parseableCount
    invalidExamples := acc.invalidExamples
    numericStats :=
      if picked.1 = ColumnInferredType.number ∧ acc.numericValues.length ≠ 0 then
        some { min := qListMin acc.numericValues
               max := qListMax acc.numericValues
               mean := acc.numericValues.sum / (acc.numericValues.length : ℚ) }
      else none
    dateStats :=
      if picked.1 = ColumnInferredType.date ∧ acc.dateValues.length ≠ 0 then
        some { minMs := zListMin acc.dateValues, maxMs := zListMax acc.dateValues }
      else none }

/-- `inferColumnProfiles`: one profile per header position. -/
def inferColumnProfiles (headers : List String) (rows : List (List Cell)) :
    List ColumnProfile :=
  (List.range headers.length).map (fun columnIndex => inferColumn columnIndex rows)

end Inference

/-!
## Derived definitions used by the statements
-/

/-- The snapshot a full drain of the undo stack lands on: the bottom entry's
stored snapshot, or the current snapshot when the stack is empty. -/
def headSnap (s : GridState) : Snapshot :=
  ((s.undoStack.head?).map UndoEntry.snapshot).getD s.toSnapshot

/-- The meta block recomputed from a snapshot. -/
def metaOf (snap : Snapshot) : Meta :=
  { rowCount := snap.rows.length, columnCount := snap.headers.length }

/-- The run invariant behind the undo-inverse property: outside any batch,
with at most `b` undo entries, draining the whole stack lands on `snap0`. -/
def UndoInv (snap0 : Snapshot) (b : ℕ) (s : GridState) : Prop :=
  s.batchDepth = 0 ∧ s.undoStack.length ≤ b ∧ headSnap s = snap0

/-- The relocation both `moveRows` and `moveColumns` perform on one array:
splice the range `[fromStart, fromEnd]` out, then splice it back in at the
shrink-adjusted destination. -/
def moveReorder {α : Type} (fromStart fromEnd toIndex : ℕ) (l : List α) : List α :=
  let count : ℤ := (fromEnd : ℤ) - (fromStart : ℤ) + 1
  let insertAt : ℤ := if fromStart < toIndex then (toIndex : ℤ) - count else (toIndex : ℤ)
  let extracted := (jsSplice l fromStart count []).1
  let rest := (jsSplice l fromStart count []).2
  (jsSplice rest insertAt 0 extracted).2

/-- One `applyMutation` call site: label, mutator, coalescing key, time. -/
def MutCall : Type := String × (Snapshot → Snapshot) × Option String × ℤ

/-- A sequence of `applyMutation` calls, applied left to right. -/
def applyMutations (calls : List MutCall) (s : GridState) : GridState :=
  calls.foldl (fun st c => applyMutation c.1 c.2.1 c.2.2.1 c.2.2.2 st) s

/-- The table-shape invariant: every row's length equals the header count. -/
def RowLengthInv (snap : Snapshot) : Prop :=
  ∀ row ∈ snap.rows, row.length = snap.headers.length

instance (snap : Snapshot) : Decidable (RowLengthInv snap) := by
  unfold RowLengthInv
  infer_instance

/-- A one-cell demonstration snapshot used by the concrete witnesses. -/
def demoSnap : Snapshot :=
  { headers := ["h"]
    rows := [[Cell.str "x"]]
    delimiter := ","
    newline := Newline.lf
    filePath := none }

/-- The fresh session on `demoSnap`. -/
def demoState : GridState := initialState demoSnap

/-- `demoState` after one cell edit at time 0. -/
def demoEdited : GridState := GridState.updateCell 0 0 (Cell.str "a") 0 demoState

/-!
## Basic facts about the history helpers
-/

theorem cloneSnapshot_eq (s : Snapshot) : cloneSnapshot s = s := by
  simp [cloneSnapshot]

theorem trimStack_eq_of_le {l : List UndoEntry} (h : l.length ≤ MAX_UNDO_HISTORY) :
    trimStack l = l := by
  unfold trimStack
  rw [if_neg (by omega)]

theorem trimStack_length (l : List UndoEntry) :
    (trimStack l).length = min l.length MAX_UNDO_HISTORY := by
  unfold trimStack
  split
  · rename_i h
    simp only [List.length_drop]
    omega
  · rename_i h
    simp only [not_lt] at h
    omega

theorem trimStack_concat_getLast? (l : List UndoEntry) (e : UndoEntry) :
    (trimStack (l ++ [e])).getLast? = some e := by
  unfold trimStack
  split
  · rename_i h
    rw [List.drop_append_of_le_length
      (by simp only [List.length_append, List.length_singleton, MAX_UNDO_HISTORY] at h ⊢; omega),
      List.getLast?_concat]
  · exact List.getLast?_concat l

/-!
## Branch lemmas for `applyMutation`
-/

theorem applyMutation_batch (label : String) (mu : Snapshot → Snapshot)
    (key : Option String) (now : ℤ) (s : GridState) (h : 0 < s.batchDepth) :
    applyMutation label mu key now s =
      { s with
        toSnapshot := mu s.toSnapshot
        dirty := true
        batchSnapshot := some (s.batchSnapshot.getD s.toSnapshot)
        meta := metaOf (mu s.toSnapshot) } := by
  unfold applyMutation
  simp only [cloneSnapshot_eq]
  rw [if_pos h]
  rfl

theorem applyMutation_coalesce (label : String) (mu : Snapshot → Snapshot)
    (k : String) (now : ℤ) (s : GridState) (top : UndoEntry)
    (h : ¬ 0 < s.batchDepth) (htop : s.undoStack.getLast? = some top)
    (hkey : top.coalesceKey = some k) (hwin : now - top.timestamp < COALESCE_WINDOW_MS) :
    applyMutation label mu (some k) now s =
      { s with
        toSnapshot := mu s.toSnapshot
        dirty := true
        undoStack := s.undoStack.dropLast ++ [{ top with timestamp := now }]
        redoStack := []
        meta := metaOf (mu s.toSnapshot) } := by
  unfold applyMutation
  simp only [cloneSnapshot_eq]
  rw [if_neg h]
  split
  · rename_i k2 top2 hk2 htop2
    rw [htop] at htop2
    injection hk2 with hk2
    injection htop2 with htop2
    subst hk2
    subst htop2
    rw [if_pos ⟨hkey, hwin⟩]
    rfl
  · rename_i hno
    exact absurd htop (fun hc => hno k top rfl hc)

theorem applyMutation_push (label : String) (mu : Snapshot → Snapshot)
    (key : Option String) (now : ℤ) (s : GridState)
    (h : ¬ 0 < s.batchDepth)
    (hnc : ∀ k top, key = some k → s.undoStack.getLast? = some top →
      ¬(top.coalesceKey = some k ∧ now - top.timestamp < COALESCE_WINDOW_MS)) :
    applyMutation label mu key now s =
      { s with
        toSnapshot := mu s.toSnapshot
        dirty := true
        undoStack := trimStack (s.undoStack ++
          [{ snapshot := s.toSnapshot, label := label, timestamp := now, coalesceKey := key }])
        redoStack := []
        meta := metaOf (mu s.toSnapshot) } := by
  unfold applyMutation
  simp only [cloneSnapshot_eq]
  rw [if_neg h]
  split
  · rename_i k2 top2 htop2
    rw [if_neg (hnc k2 top2 rfl htop2)]
    rfl
  · rfl

/-- Outside a batch, `applyMutation` either pushes a fresh entry capturing
the pre-mutation snapshot, or coalesces into the top entry (refreshing only
its timestamp); both branches clear the redo stack. -/
theorem applyMutation_push_or_coalesce (label : String) (mu : Snapshot → Snapshot)
    (key : Option String) (now : ℤ) (s : GridState) (h : ¬ 0 < s.batchDepth) :
    applyMutation label mu key now s =
      { s with
        toSnapshot := mu s.toSnapshot
        dirty := true
        undoStack := trimStack (s.undoStack ++
          [{ snapshot := s.toSnapshot, label := label, timestamp := now, coalesceKey := key }])
        redoStack := []
        meta := metaOf (mu s.toSnapshot) }
    ∨ ∃ top, s.undoStack.getLast? = some top ∧
        applyMutation label mu key now s =
          { s with
            toSnapshot := mu s.toSnapshot
            dirty := true
            undoStack := s.undoStack.dropLast ++ [{ top with timestamp := now }]
            redoStack := []
            meta := metaOf (mu s.toSnapshot) } := by
  cases key with
  | none =>
    exact Or.inl (applyMutation_push label mu none now s h
      (fun k top hk _ => by exact absurd hk (by simp)))
  | some k =>
    cases hgl : s.undoStack.getLast? with
    | none =>
      exact Or.inl (applyMutation_push label mu (some k) now s h
        (fun k2 top hk htop => by rw [hgl] at htop; exact absurd htop (by simp)))
    | some top =>
      by_cases hc : top.coalesceKey = some k ∧ now - top.timestamp < COALESCE_WINDOW_MS
      · exact Or.inr ⟨top, rfl, applyMutation_coalesce label mu k now s top h hgl hc.1 hc.2⟩
      · refine Or.inl (applyMutation_push label mu (some k) now s h ?_)
        intro k2 top2 hk htop
        injection hk with hk
        subst hk
        rw [hgl] at htop
        injection htop with htop
        subst htop
        exact hc

/-- Every edit operation is either a guarded no-op or one `applyMutation`. -/
theorem applyEdit_eq_self_or_mutation (op : EditOp) (now : ℤ) (s : GridState) :
    applyEdit op now s = s ∨
    ∃ label mu key, applyEdit op now s = applyMutation label mu key now s := by
  cases op with
  | updateCell r c v =>
    simp only [applyEdit, GridState.updateCell]
    split
    · exact Or.inl rfl
    · exact Or.inr ⟨_, _, _, rfl⟩
  | updateHeader c v =>
    simp only [applyEdit, GridState.updateHeader]
    split
    · exact Or.inl rfl
    · exact Or.inr ⟨_, _, _, rfl⟩
  | addRow =>
    simp only [applyEdit, GridState.addRow]
    exact Or.inr ⟨_, _, _, rfl⟩
  | addColumn =>
    simp only [applyEdit, GridState.addColumn]
    exact Or.inr ⟨_, _, _, rfl⟩
  | insertRowAt r =>
    simp only [applyEdit, GridState.insertRowAt]
    exact Or.inr ⟨_, _, _, rfl⟩
  | insertColumnAt c =>
    simp only [applyEdit, GridState.insertColumnAt]
    exact Or.inr ⟨_, _, _, rfl⟩
  | removeRow r =>
    simp only [applyEdit, GridState.removeRow]
    exact Or.inr ⟨_, _, _, rfl⟩
  | removeColumn c =>
    simp only [applyEdit, GridState.removeColumn]
    exact Or.inr ⟨_, _, _, rfl⟩
  | moveRows a b t =>
    simp only [applyEdit, GridState.moveRows]
    split
    · exact Or.inl rfl
    · exact Or.inr ⟨_, _, _, rfl⟩
  | moveColumns a b t =>
    simp only [applyEdit, GridState.moveColumns]
    split
    · exact Or.inl rfl
    · exact Or.inr ⟨_, _, _, rfl⟩
  | replaceAll t r m =>
    simp only [applyEdit, GridState.replaceAll]
    split
    · exact Or.inl rfl
    · exact Or.inr ⟨_, _, _, rfl⟩

/-!
## The undo-inverse invariant
-/

theorem undoInv_mono {snap0 : Snapshot} {b b' : ℕ} {s : GridState}
    (h : UndoInv snap0 b s) (hb : b ≤ b') : UndoInv snap0 b' s :=
  ⟨h.1, le_trans h.2.1 hb, h.2.2⟩

theorem undoInv_applyMutation {snap0 : Snapshot} {b : ℕ} {s : GridState}
    (hI : UndoInv snap0 b s) (hb : b < MAX_UNDO_HISTORY)
    (label : String) (mu : Snapshot → Snapshot) (key : Option String) (now : ℤ) :
    UndoInv snap0 (b + 1) (applyMutation label mu key now s) := by
  obtain ⟨hd, hlen, hhead⟩ := hI
  have hnb : ¬ 0 < s.batchDepth := by rw [hd]; exact lt_irrefl 0
  rcases applyMutation_push_or_coalesce label mu key now s hnb with heq | ⟨top, htop, heq⟩
  · rw [heq]
    have htrim : trimStack (s.undoStack ++
        [{ snapshot := s.toSnapshot, label := label, timestamp := now, coalesceKey := key }]) =
        s.undoStack ++
        [{ snapshot := s.toSnapshot, label := label, timestamp := now, coalesceKey := key }] := by
      apply trimStack_eq_of_le
      simp only [List.length_append, List.length_singleton]
      omega
    refine ⟨hd, ?_, ?_⟩
    · simp only [htrim, List.length_append, List.length_singleton]
      omega
    · simp only [headSnap, htrim]
      cases hu : s.undoStack with
      | nil =>
        simp only [headSnap, hu] at hhead
        simpa using hhead
      | cons a t =>
        simp only [headSnap, hu] at hhead
        simpa using hhead
  · rw [heq]
    have hdecomp : s.undoStack.dropLast ++ [top] = s.undoStack :=
      List.dropLast_append_getLast? top htop
    refine ⟨hd, ?_, ?_⟩
    · show (s.undoStack.dropLast ++ [{ top with timestamp := now }]).length ≤ b + 1
      have hlen2 : (s.undoStack.dropLast ++ [{ top with timestamp := now }]).length
          = s.undoStack.length := by
        have hcongr := congrArg List.length hdecomp
        simp only [List.length_append, List.length_singleton] at hcongr ⊢
        omega
      omega
    · cases hu : s.undoStack with
      | nil => rw [hu] at htop; simp at htop
      | cons a t =>
        cases t with
        | nil =>
          rw [hu] at htop
          simp only [List.getLast?_singleton] at htop
          injection htop with htop
          subst htop
          simp only [headSnap, hu] at hhead ⊢
          simpa using hhead
        | cons a2 t2 =>
          simp only [headSnap, hu] at hhead ⊢
          simp only [List.dropLast_cons₂, List.cons_append, List.head?_cons] at hhead ⊢
          exact hhead

theorem undoInv_applyEdit {snap0 : Snapshot} {b : ℕ} {s : GridState}
    (hI : UndoInv snap0 b s) (hb : b < MAX_UNDO_HISTORY)
    (op : EditOp) (now : ℤ) :
    UndoInv snap0 (b + 1) (applyEdit op now s) := by
  rcases applyEdit_eq_self_or_mutation op now s with he | ⟨l, mu, k, he⟩
  · rw [he]
    exact undoInv_mono hI (Nat.le_succ b)
  · rw [he]
    exact undoInv_applyMutation hI hb l mu k now

theorem undoInv_applyEdits (snap0 : Snapshot) (ops : List (EditOp × ℤ)) :
    ∀ (b : ℕ) (s : GridState), UndoInv snap0 b s → b + ops.length ≤ MAX_UNDO_HISTORY →
      UndoInv snap0 (b + ops.length) (applyEdits ops s) := by
  induction ops with
  | nil =>
    intro b s hI _
    simpa [applyEdits] using hI
  | cons p rest ih =>
    intro b s hI hle
    have hstep : UndoInv snap0 (b + 1) (applyEdit p.1 p.2 s) :=
      undoInv_applyEdit hI (by simp only [List.length_cons] at hle; omega) p.1 p.2
    have hres := ih (b + 1) _ hstep (by simp only [List.length_cons] at hle; omega)
    have harith : b + (p :: rest).length = b + 1 + rest.length := by
      simp only [List.length_cons]
      omega
    rw [harith]
    simpa [applyEdits] using hres

/-!
## Draining the undo stack
-/

theorem undo_of_empty {s : GridState} (t : ℤ) (h : s.undoStack = []) :
    GridState.undo t s = s := by
  unfold GridState.undo
  rw [h]
  rfl

theorem undo_of_getLast {s : GridState} {top : UndoEntry} (t : ℤ)
    (htop : s.undoStack.getLast? = some top) :
    GridState.undo t s =
      { s with
        toSnapshot := top.snapshot
        dirty := true
        undoStack := s.undoStack.dropLast
        redoStack := trimStack (s.redoStack ++
          [{ snapshot := s.toSnapshot, label := top.label, timestamp := t, coalesceKey := none }])
        meta := metaOf top.snapshot } := by
  unfold GridState.undo
  rw [htop]
  simp only [cloneSnapshot_eq]
  rfl

theorem headSnap_undo {s : GridState} (t : ℤ) (hne : s.undoStack ≠ []) :
    headSnap (GridState.undo t s) = headSnap s ∧
    (GridState.undo t s).undoStack = s.undoStack.dropLast := by
  obtain ⟨top, htop⟩ : ∃ top, s.undoStack.getLast? = some top := by
    cases hgl : s.undoStack.getLast? with
    | none => exact absurd (List.getLast?_eq_none_iff.mp hgl) hne
    | some top => exact ⟨top, rfl⟩
  rw [undo_of_getLast t htop]
  refine ⟨?_, rfl⟩
  cases hu : s.undoStack with
  | nil => exact absurd hu hne
  | cons a t' =>
    cases t' with
    | nil =>
      rw [hu] at htop
      simp only [List.getLast?_singleton] at htop
      injection htop with htop
      subst htop
      simp [headSnap, hu]
    | cons a2 t2 =>
      simp [headSnap, hu, List.dropLast_cons₂]

theorem applyUndos_toSnapshot (ts : List ℤ) :
    ∀ s : GridState, s.undoStack.length ≤ ts.length →
      (applyUndos ts s).toSnapshot = headSnap s := by
  induction ts with
  | nil =>
    intro s h
    have hnil : s.undoStack = [] := List.eq_nil_of_length_eq_zero (by simpa using h)
    simp [applyUndos, headSnap, hnil]
  | cons t ts ih =>
    intro s h
    have hfold : applyUndos (t :: ts) s = applyUndos ts (GridState.undo t s) := by
      simp [applyUndos]
    by_cases hne : s.undoStack = []
    · rw [hfold, undo_of_empty t hne]
      exact ih s (by rw [hne]; simp)
    · obtain ⟨hhead, hstack⟩ := headSnap_undo t hne
      have hlen : (GridState.undo t s).undoStack.length ≤ ts.length := by
        rw [hstack, List.length_dropLast]
        simp only [List.length_cons] at h
        omega
      rw [hfold, ih _ hlen, hhead]

theorem redo_of_getLast {s : GridState} {top : UndoEntry} (t : ℤ)
    (htop : s.redoStack.getLast? = some top) :
    GridState.redo t s =
      { s with
        toSnapshot := top.snapshot
        dirty := true
        redoStack := s.redoStack.dropLast
        undoStack := trimStack (s.undoStack ++
          [{ snapshot := s.toSnapshot, label := top.label, timestamp := t, coalesceKey := none }])
        meta := metaOf top.snapshot } := by
  unfold GridState.redo
  rw [htop]
  simp only [cloneSnapshot_eq]
  rfl

theorem redo_of_empty {s : GridState} (t : ℤ) (h : s.redoStack = []) :
    GridState.redo t s = s := by
  unfold GridState.redo
  rw [h]
  rfl

/-!
## C1 — undo is a true inverse of edit sequences
-/

/-- **C1.** For every starting snapshot, every sequence of `n` edit
operations (cell and header edits, row/column insertion, deletion, moves,
replace-all) performed outside any batch on a fresh session, and every
sequence of at least `n` subsequent undos, if the run stays within the
50-entry cap (`n ≤ MAX_UNDO_HISTORY`, so the stack is never truncated), the
resulting snapshot — headers, rows, delimiter, newline, file path — is
deep-equal to the snapshot before the first edit. -/
theorem undo_inverts_edit_sequences (snap : Snapshot) (ops : List (EditOp × ℤ))
    (undoTimes : List ℤ) (hcap : ops.length ≤ MAX_UNDO_HISTORY)
    (hn : undoTimes.length = ops.length) :
    (applyUndos undoTimes (applyEdits ops (initialState snap))).toSnapshot = snap := by
  have hI0 : UndoInv snap 0 (initialState snap) := by
    refine ⟨rfl, by simp [initialState], ?_⟩
    simp [headSnap, initialState]
  have hI := undoInv_applyEdits snap ops 0 (initialState snap) hI0 (by omega)
  have hlen : (applyEdits ops (initialState snap)).undoStack.length ≤ undoTimes.length := by
    have := hI.2.1
    omega
  rw [applyUndos_toSnapshot undoTimes _ hlen, hI.2.2]

/-- Witness for `undo_inverts_edit_sequences`: a concrete cell edit followed
by a row insertion, undone twice. -/
theorem undo_inverts_edit_sequences_witness :
    (applyUndos [20, 30] (applyEdits
      [(EditOp.updateCell 0 0 (Cell.str "a"), 0), (EditOp.addRow, 10)]
      (initialState demoSnap))).toSnapshot = demoSnap :=
  undo_inverts_edit_sequences demoSnap
    [(EditOp.updateCell 0 0 (Cell.str "a"), 0), (EditOp.addRow, 10)]
    [20, 30] (by decide) (by decide)

/-!
## C4 — undo/redo semantics
-/

/-- **C4.** Undo on a non-empty stack pops the most recent entry, installs
its snapshot, and pushes the pre-undo snapshot onto the redo stack under the
popped entry's label; undo on an empty stack is the identity; and a redo
immediately after an undo (no intervening mutation) restores exactly the
snapshot from just before the undo. -/
theorem undo_redo_spec :
    (∀ (s : GridState) (now : ℤ) (top : UndoEntry),
        s.undoStack.getLast? = some top →
        (GridState.undo now s).toSnapshot = top.snapshot ∧
        (GridState.undo now s).undoStack = s.undoStack.dropLast ∧
        (GridState.undo now s).redoStack = trimStack (s.redoStack ++
          [{ snapshot := s.toSnapshot, label := top.label, timestamp := now,
             coalesceKey := none }]))
    ∧ (∀ (s : GridState) (now : ℤ), s.undoStack = [] → GridState.undo now s = s)
    ∧ (∀ (s : GridState) (now1 now2 : ℤ), s.undoStack ≠ [] →
        (GridState.redo now2 (GridState.undo now1 s)).toSnapshot = s.toSnapshot) := by
  refine ⟨?_, ?_, ?_⟩
  · intro s now top htop
    rw [undo_of_getLast now htop]
    exact ⟨rfl, rfl, rfl⟩
  · intro s now h
    exact undo_of_empty now h
  · intro s now1 now2 hne
    obtain ⟨top, htop⟩ : ∃ top, s.undoStack.getLast? = some top := by
      cases hgl : s.undoStack.getLast? with
      | none => exact absurd (List.getLast?_eq_none_iff.mp hgl) hne
      | some top => exact ⟨top, rfl⟩
    rw [undo_of_getLast now1 htop]
    rw [redo_of_getLast now2 (by exact trimStack_concat_getLast? _ _)]

/-- Witness for `undo_redo_spec` at the concrete one-edit state. -/
theorem undo_redo_spec_witness :
    (GridState.undo 5 demoEdited).toSnapshot = demoSnap ∧
    GridState.undo 5 demoState = demoState ∧
    (GridState.redo 7 (GridState.undo 5 demoEdited)).toSnapshot = demoEdited.toSnapshot := by
  refine ⟨?_, ?_, ?_⟩
  · exact (undo_redo_spec.1 demoEdited 5
      { snapshot := demoSnap, label := "Edit Cell", timestamp := 0,
        coalesceKey := some "cell:0:0" } (by decide)).1
  · exact undo_redo_spec.2.1 demoState 5 (by decide)
  · exact undo_redo_spec.2.2 demoEdited 5 7 (by decide)

/-!
## C2 — coalescing of rapid same-target mutations
-/

/-- **C2.** With a matching top-entry key inside the 2000 ms window, a
non-batch mutation refreshes only the top entry's timestamp (keeping its
stored "before" snapshot) and clears the redo stack; otherwise — different
or absent key, or window elapsed — a fresh entry is pushed whose snapshot is
the state immediately before the mutation.  Concretely, two cell edits to
the same cell 1000 ms apart leave exactly one entry storing the pre-first-
edit snapshot, and two edits 3000 ms apart leave two entries. -/
theorem mutation_coalescing_spec :
    (∀ (s : GridState) (label : String) (mu : Snapshot → Snapshot) (k : String)
        (now : ℤ) (top : UndoEntry),
        s.batchDepth = 0 →
        s.undoStack.getLast? = some top →
        top.coalesceKey = some k →
        now - top.timestamp < COALESCE_WINDOW_MS →
        (applyMutation label mu (some k) now s).undoStack =
          s.undoStack.dropLast ++ [{ top with timestamp := now }] ∧
        (applyMutation label mu (some k) now s).redoStack = [])
    ∧ (∀ (s : GridState) (label : String) (mu : Snapshot → Snapshot)
        (key : Option String) (now : ℤ),
        s.batchDepth = 0 →
        s.undoStack.length < MAX_UNDO_HISTORY →
        (∀ k top, key = some k → s.undoStack.getLast? = some top →
          ¬(top.coalesceKey = some k ∧ now - top.timestamp < COALESCE_WINDOW_MS)) →
        (applyMutation label mu key now s).undoStack =
          s.undoStack ++
            [{ snapshot := s.toSnapshot, label := label, timestamp := now,
               coalesceKey := key }] ∧
        (applyMutation label mu key now s).redoStack = [])
    ∧ (GridState.updateCell 0 0 (Cell.str "b") 1000 demoEdited).undoStack =
        [{ snapshot := demoSnap, label := "Edit Cell", timestamp := 1000,
           coalesceKey := some "cell:0:0" }]
    ∧ (GridState.updateCell 0 0 (Cell.str "b") 1000 demoEdited).redoStack = []
    ∧ (GridState.updateCell 0 0 (Cell.str "b") 3000 demoEdited).undoStack =
        [{ snapshot := demoSnap, label := "Edit Cell", timestamp := 0,
           coalesceKey := some "cell:0:0" },
         { snapshot := demoEdited.toSnapshot, label := "Edit Cell", timestamp := 3000,
           coalesceKey := some "cell:0:0" }] := by
  refine ⟨?_, ?_, by decide, by decide, by decide⟩
  · intro s label mu k now top hd htop hkey hwin
    rw [applyMutation_coalesce label mu k now s top (by rw [hd]; exact lt_irrefl 0) htop
      hkey hwin]
    exact ⟨rfl, rfl⟩
  · intro s label mu key now hd hlen hnc
    rw [applyMutation_push label mu key now s (by rw [hd]; exact lt_irrefl 0) hnc]
    refine ⟨?_, rfl⟩
    show trimStack _ = _
    apply trimStack_eq_of_le
    simp only [List.length_append, List.length_singleton]
    omega

/-- Witness for `mutation_coalescing_spec`: the coalescing branch applied at
the one-entry state, and the push branch applied at the fresh state. -/
theorem mutation_coalescing_spec_witness :
    ((applyMutation "Edit Cell" (fun d => d) (some "cell:0:0") 500 demoEdited).undoStack =
        [{ snapshot := demoSnap, label := "Edit Cell", timestamp := 500,
           coalesceKey := some "cell:0:0" }] ∧
      (applyMutation "Edit Cell" (fun d => d) (some "cell:0:0") 500 demoEdited).redoStack = [])
    ∧ ((applyMutation "Add Row" (fun d => d) none 9 demoState).undoStack =
        [{ snapshot := demoSnap, label := "Add Row", timestamp := 9, coalesceKey := none }] ∧
      (applyMutation "Add Row" (fun d => d) none 9 demoState).redoStack = []) := by
  constructor
  · have h := mutation_coalescing_spec.1 demoEdited "Edit Cell" (fun d => d) "cell:0:0" 500
      { snapshot := demoSnap, label := "Edit Cell", timestamp := 0,
        coalesceKey := some "cell:0:0" }
      (by decide) (by decide) (by decide) (by decide)
    exact h
  · have h := mutation_coalescing_spec.2.1 demoState "Add Row" (fun d => d) none 9
      (by decide) (by decide) (fun k top hk _ => by exact absurd hk (by simp))
    exact h

/-!
## C3 — batch transactions
-/

theorem commitBatch_nested {s : GridState} (now : ℤ) (h : 1 < s.batchDepth) :
    GridState.commitBatch now s = { s with batchDepth := s.batchDepth - 1 } := by
  unfold GridState.commitBatch
  rw [if_pos (by omega)]

theorem commitBatch_push {s : GridState} {snap : Snapshot} (now : ℤ)
    (hle : s.batchDepth ≤ 1) (hsnap : s.batchSnapshot = some snap) :
    GridState.commitBatch now s =
      { s with
        batchDepth := 0
        batchLabel := none
        batchSnapshot := none
        undoStack := trimStack (s.undoStack ++
          [{ snapshot := snap, label := s.batchLabel.getD "Batch Edit", timestamp := now,
             coalesceKey := none }])
        redoStack := [] } := by
  unfold GridState.commitBatch
  rw [if_neg (by omega), hsnap]

theorem commitBatch_noacc {s : GridState} (now : ℤ)
    (hle : s.batchDepth ≤ 1) (hsnap : s.batchSnapshot = none) :
    GridState.commitBatch now s =
      { s with batchDepth := 0, batchLabel := none, batchSnapshot := none } := by
  unfold GridState.commitBatch
  rw [if_neg (by omega), hsnap]

theorem applyMutation_batchDepth (label : String) (mu : Snapshot → Snapshot)
    (key : Option String) (now : ℤ) (s : GridState) :
    (applyMutation label mu key now s).batchDepth = s.batchDepth := by
  by_cases h : 0 < s.batchDepth
  · rw [applyMutation_batch label mu key now s h]
  · rcases applyMutation_push_or_coalesce label mu key now s h with heq | ⟨top, _, heq⟩ <;>
      rw [heq]

theorem undo_batchDepth (t : ℤ) (s : GridState) :
    (GridState.undo t s).batchDepth = s.batchDepth := by
  cases hgl : s.undoStack.getLast? with
  | none => rw [undo_of_empty t (List.getLast?_eq_none_iff.mp hgl)]
  | some top => rw [undo_of_getLast t hgl]

theorem redo_batchDepth (t : ℤ) (s : GridState) :
    (GridState.redo t s).batchDepth = s.batchDepth := by
  cases hgl : s.redoStack.getLast? with
  | none => rw [redo_of_empty t (List.getLast?_eq_none_iff.mp hgl)]
  | some top => rw [redo_of_getLast t hgl]

theorem applyStore_batchDepth_nonneg (op : StoreOp) (now : ℤ) (s : GridState)
    (h : 0 ≤ s.batchDepth) : 0 ≤ (applyStore op now s).batchDepth := by
  cases op with
  | edit e =>
    rcases applyEdit_eq_self_or_mutation e now s with he | ⟨l, mu, k, he⟩
    · rw [applyStore, he]; exact h
    · rw [applyStore, he, applyMutation_batchDepth]; exact h
  | undo => rw [applyStore, undo_batchDepth]; exact h
  | redo => rw [applyStore, redo_batchDepth]; exact h
  | beginBatch label =>
    show 0 ≤ s.batchDepth + 1
    omega
  | commitBatch =>
    show 0 ≤ (GridState.commitBatch now s).batchDepth
    by_cases hd : 1 < s.batchDepth
    · rw [commitBatch_nested now hd]
      show 0 ≤ s.batchDepth - 1
      omega
    · cases hsnap : s.batchSnapshot with
      | none => rw [commitBatch_noacc now (by omega) hsnap]
      | some snap => rw [commitBatch_push now (by omega) hsnap]

/-- Mutations inside an open batch touch neither history stack, keep the
depth, and record the pre-batch snapshot exactly once. -/
theorem applyMutations_batch (calls : List MutCall) :
    ∀ s : GridState, 0 < s.batchDepth →
      (applyMutations calls s).batchDepth = s.batchDepth ∧
      (applyMutations calls s).undoStack = s.undoStack ∧
      (applyMutations calls s).redoStack = s.redoStack ∧
      (applyMutations calls s).batchLabel = s.batchLabel ∧
      ((calls = [] ∧ (applyMutations calls s).batchSnapshot = s.batchSnapshot) ∨
        (calls ≠ [] ∧ (applyMutations calls s).batchSnapshot =
          some (s.batchSnapshot.getD s.toSnapshot))) := by
  induction calls with
  | nil =>
    intro s hd
    exact ⟨rfl, rfl, rfl, rfl, Or.inl ⟨rfl, rfl⟩⟩
  | cons c rest ih =>
    intro s hd
    have hstep : applyMutations (c :: rest) s =
        applyMutations rest (applyMutation c.1 c.2.1 c.2.2.1 c.2.2.2 s) := by
      simp [applyMutations]
    have hbatch := applyMutation_batch c.1 c.2.1 c.2.2.1 c.2.2.2 s hd
    have hd2 : 0 < (applyMutation c.1 c.2.1 c.2.2.1 c.2.2.2 s).batchDepth := by
      rw [hbatch]; exact hd
    obtain ⟨h1, h2, h3, h4, h5⟩ := ih (applyMutation c.1 c.2.1 c.2.2.1 c.2.2.2 s) hd2
    rw [hstep]
    rw [hbatch] at h1 h2 h3 h4 ⊢
    refine ⟨h1, h2, h3, h4, Or.inr ⟨by simp, ?_⟩⟩
    rcases h5 with ⟨_, h5⟩ | ⟨_, h5⟩ <;>
      simpa [hbatch] using h5

/-- **C3.** `beginBatch` increments the depth; mutations at positive depth
push no entries and record the pre-batch snapshot once (at the first
mutation); `commitBatch` decrements, pushing exactly one entry — storing the
pre-batch snapshot — only when the depth reaches zero with a recorded
snapshot; the stored depth never becomes negative; commit at depth 0 with
nothing accumulated is a no-op; and one undo after an outermost commit
restores the pre-batch snapshot. -/
theorem batch_transaction_spec :
    (∀ (s : GridState) (label : String),
        (GridState.beginBatch label s).batchDepth = s.batchDepth + 1 ∧
        (GridState.beginBatch label s).undoStack = s.undoStack ∧
        (GridState.beginBatch label s).batchSnapshot = s.batchSnapshot)
    ∧ (∀ (s : GridState) (label : String) (mu : Snapshot → Snapshot)
        (key : Option String) (now : ℤ), 0 < s.batchDepth →
        (applyMutation label mu key now s).undoStack = s.undoStack ∧
        (applyMutation label mu key now s).redoStack = s.redoStack ∧
        (applyMutation label mu key now s).batchSnapshot =
          some (s.batchSnapshot.getD s.toSnapshot) ∧
        (applyMutation label mu key now s).batchDepth = s.batchDepth)
    ∧ (∀ (s : GridState) (now : ℤ), 1 < s.batchDepth →
        GridState.commitBatch now s = { s with batchDepth := s.batchDepth - 1 })
    ∧ (∀ (s : GridState) (now : ℤ) (snap : Snapshot),
        s.batchDepth ≤ 1 → s.batchSnapshot = some snap →
        (GridState.commitBatch now s).batchDepth = 0 ∧
        (GridState.commitBatch now s).undoStack = trimStack (s.undoStack ++
          [{ snapshot := snap, label := s.batchLabel.getD "Batch Edit", timestamp := now,
             coalesceKey := none }]) ∧
        (GridState.commitBatch now s).redoStack = [] ∧
        (GridState.commitBatch now s).batchSnapshot = none)
    ∧ (∀ (s : GridState) (now : ℤ),
        s.batchDepth = 0 → s.batchSnapshot = none → s.batchLabel = none →
        GridState.commitBatch now s = s)
    ∧ (∀ (op : StoreOp) (now : ℤ) (s : GridState),
        0 ≤ s.batchDepth → 0 ≤ (applyStore op now s).batchDepth)
    ∧ (∀ (s : GridState) (label : String) (calls : List MutCall) (nowC nowU : ℤ),
        s.batchDepth = 0 → s.batchSnapshot = none → s.batchLabel = none →
        calls ≠ [] → s.undoStack.length < MAX_UNDO_HISTORY →
        (GridState.commitBatch nowC
            (applyMutations calls (GridState.beginBatch label s))).undoStack =
          s.undoStack ++
            [{ snapshot := s.toSnapshot, label := label, timestamp := nowC,
               coalesceKey := none }] ∧
        (GridState.undo nowU (GridState.commitBatch nowC
            (applyMutations calls (GridState.beginBatch label s)))).toSnapshot =
          s.toSnapshot) := by
  refine ⟨?_, ?_, ?_, ?_, ?_, ?_, ?_⟩
  · intro s label
    exact ⟨rfl, rfl, rfl⟩
  · intro s label mu key now hd
    rw [applyMutation_batch label mu key now s hd]
    exact ⟨rfl, rfl, rfl, rfl⟩
  · intro s now h
    exact commitBatch_nested now h
  · intro s now snap hle hsnap
    rw [commitBatch_push now hle hsnap]
    exact ⟨rfl, rfl, rfl, rfl⟩
  · intro s now h0 hsnap hlbl
    rw [commitBatch_noacc now (by omega) hsnap]
    rcases s with ⟨snapf, dirtyf, metaf, us, rs, bd, bl, bs⟩
    simp only at h0 hlbl hsnap
    rw [h0, hlbl, hsnap]
  · intro op now s h
    exact applyStore_batchDepth_nonneg op now s h
  · intro s label calls nowC nowU hd hsnap hlbl hne hlen
    have hd1 : 0 < (GridState.beginBatch label s).batchDepth := by
      show 0 < s.batchDepth + 1
      omega
    obtain ⟨hb1, hb2, hb3, hb4, hb5⟩ :=
      applyMutations_batch calls (GridState.beginBatch label s) hd1
    rcases hb5 with ⟨hc, _⟩ | ⟨_, hb5⟩
    · exact absurd hc hne
    have hm_depth : (applyMutations calls (GridState.beginBatch label s)).batchDepth ≤ 1 := by
      rw [hb1]
      show s.batchDepth + 1 ≤ 1
      omega
    have hm_snap : (applyMutations calls (GridState.beginBatch label s)).batchSnapshot =
        some s.toSnapshot := by
      rw [hb5]
      show some ((s.batchSnapshot.getD s.toSnapshot)) = some s.toSnapshot
      rw [hsnap]
      rfl
    have hm_label : (applyMutations calls (GridState.beginBatch label s)).batchLabel =
        some label := by
      rw [hb4]
      show some (s.batchLabel.getD label) = some label
      rw [hlbl]
      rfl
    have hm_undo : (applyMutations calls (GridState.beginBatch label s)).undoStack =
        s.undoStack := hb2
    have hcommit := commitBatch_push nowC hm_depth hm_snap
    rw [hcommit]
    have hstack :
        trimStack ((applyMutations calls (GridState.beginBatch label s)).undoStack ++
          [{ snapshot := s.toSnapshot,
             label := (applyMutations calls (GridState.beginBatch label s)).batchLabel.getD
               "Batch Edit",
             timestamp := nowC, coalesceKey := none }]) =
        s.undoStack ++
          [{ snapshot := s.toSnapshot, label := label, timestamp := nowC,
             coalesceKey := none }] := by
      rw [hm_label, hm_undo]
      apply trimStack_eq_of_le
      simp only [List.length_append, List.length_singleton]
      omega
    constructor
    · exact hstack
    · rw [undo_of_getLast nowU (by rw [hstack]; exact List.getLast?_concat _)]

/-- Witness for `batch_transaction_spec`: a one-mutation batch on the demo
state, committed and undone. -/
theorem batch_transaction_spec_witness :
    (GridState.beginBatch "Batch" demoState).batchDepth = demoState.batchDepth + 1 ∧
    ((GridState.commitBatch 10 (applyMutations [("Add Row", fun d => d, none, 5)]
        (GridState.beginBatch "Batch" demoState))).undoStack =
      demoState.undoStack ++
        [{ snapshot := demoState.toSnapshot, label := "Batch", timestamp := 10,
           coalesceKey := none }] ∧
      (GridState.undo 20 (GridState.commitBatch 10 (applyMutations
          [("Add Row", fun d => d, none, 5)]
          (GridState.beginBatch "Batch" demoState)))).toSnapshot =
        demoState.toSnapshot) := by
  constructor
  · exact (batch_transaction_spec.1 demoState "Batch").1
  · exact batch_transaction_spec.2.2.2.2.2.2 demoState "Batch"
      [("Add Row", fun d => d, none, 5)] 10 20 rfl rfl rfl (by simp) (by decide)

/-!
## C9 — the 50-entry history bound
-/

theorem applyMutation_stack_lengths (label : String) (mu : Snapshot → Snapshot)
    (key : Option String) (now : ℤ) (s : GridState)
    (hu : s.undoStack.length ≤ MAX_UNDO_HISTORY)
    (hr : s.redoStack.length ≤ MAX_UNDO_HISTORY) :
    (applyMutation label mu key now s).undoStack.length ≤ MAX_UNDO_HISTORY ∧
    (applyMutation label mu key now s).redoStack.length ≤ MAX_UNDO_HISTORY := by
  by_cases h : 0 < s.batchDepth
  · rw [applyMutation_batch label mu key now s h]
    exact ⟨hu, hr⟩
  · rcases applyMutation_push_or_coalesce label mu key now s h with heq | ⟨top, htop, heq⟩
    · rw [heq]
      constructor
      · show (trimStack _).length ≤ MAX_UNDO_HISTORY
        rw [trimStack_length]
        omega
      · show ([] : List UndoEntry).length ≤ MAX_UNDO_HISTORY
        simp
    · rw [heq]
      constructor
      · show (s.undoStack.dropLast ++ [{ top with timestamp := now }]).length ≤ MAX_UNDO_HISTORY
        have hdecomp := congrArg List.length (List.dropLast_append_getLast? top htop)
        simp only [List.length_append, List.length_singleton] at hdecomp ⊢
        omega
      · show ([] : List UndoEntry).length ≤ MAX_UNDO_HISTORY
        simp

/-- **C9.** After every engine operation both stacks hold at most 50
entries, and a push at the cap drops exactly the oldest entries from the
front while keeping the newest. -/
theorem history_cap_spec :
    (∀ (op : StoreOp) (now : ℤ) (s : GridState),
        s.undoStack.length ≤ MAX_UNDO_HISTORY →
        s.redoStack.length ≤ MAX_UNDO_HISTORY →
        (applyStore op now s).undoStack.length ≤ MAX_UNDO_HISTORY ∧
        (applyStore op now s).redoStack.length ≤ MAX_UNDO_HISTORY)
    ∧ (∀ (l : List UndoEntry) (e : UndoEntry),
        MAX_UNDO_HISTORY ≤ l.length →
        trimStack (l ++ [e]) = l.drop (l.length + 1 - MAX_UNDO_HISTORY) ++ [e]) := by
  constructor
  · intro op now s hu hr
    cases op with
    | edit e =>
      rcases applyEdit_eq_self_or_mutation e now s with he | ⟨l, mu, k, he⟩
      · rw [applyStore, he]; exact ⟨hu, hr⟩
      · rw [applyStore, he]
        exact applyMutation_stack_lengths l mu k now s hu hr
    | undo =>
      show (GridState.undo now s).undoStack.length ≤ _ ∧
        (GridState.undo now s).redoStack.length ≤ _
      cases hgl : s.undoStack.getLast? with
      | none => rw [undo_of_empty now (List.getLast?_eq_none_iff.mp hgl)]; exact ⟨hu, hr⟩
      | some top =>
        rw [undo_of_getLast now hgl]
        constructor
        · show s.undoStack.dropLast.length ≤ _
          rw [List.length_dropLast]
          omega
        · show (trimStack _).length ≤ _
          rw [trimStack_length]
          omega
    | redo =>
      show (GridState.redo now s).undoStack.length ≤ _ ∧
        (GridState.redo now s).redoStack.length ≤ _
      cases hgl : s.redoStack.getLast? with
      | none => rw [redo_of_empty now (List.getLast?_eq_none_iff.mp hgl)]; exact ⟨hu, hr⟩
      | some top =>
        rw [redo_of_getLast now hgl]
        constructor
        · show (trimStack _).length ≤ _
          rw [trimStack_length]
          omega
        · show s.redoStack.dropLast.length ≤ _
          rw [List.length_dropLast]
          omega
    | beginBatch label => exact ⟨hu, hr⟩
    | commitBatch =>
      show (GridState.commitBatch now s).undoStack.length ≤ _ ∧
        (GridState.commitBatch now s).redoStack.length ≤ _
      by_cases hd : 1 < s.batchDepth
      · rw [commitBatch_nested now hd]; exact ⟨hu, hr⟩
      · cases hsnap : s.batchSnapshot with
        | none => rw [commitBatch_noacc now (by omega) hsnap]; exact ⟨hu, hr⟩
        | some snap =>
          rw [commitBatch_push now (by omega) hsnap]
          constructor
          · show (trimStack _).length ≤ _
            rw [trimStack_length]
            omega
          · show ([] : List UndoEntry).length ≤ _
            simp
  · intro l e hfull
    unfold trimStack
    rw [if_pos (by simp only [List.length_append, List.length_singleton]; omega)]
    rw [List.drop_append_of_le_length
      (by simp only [List.length_append, List.length_singleton, MAX_UNDO_HISTORY]; omega)]
    congr 1
    simp only [List.length_append, List.length_singleton]

/-- Witness for `history_cap_spec` at the demo state and a full stack. -/
theorem history_cap_spec_witness :
    ((applyStore (StoreOp.edit EditOp.addRow) 3 demoState).undoStack.length ≤
        MAX_UNDO_HISTORY ∧
      (applyStore (StoreOp.edit EditOp.addRow) 3 demoState).redoStack.length ≤
        MAX_UNDO_HISTORY)
    ∧ trimStack (List.replicate MAX_UNDO_HISTORY
          { snapshot := demoSnap, label := "Old", timestamp := 0,
            coalesceKey := (none : Option String) } ++
        [{ snapshot := demoSnap, label := "New", timestamp := 1, coalesceKey := none }]) =
      (List.replicate MAX_UNDO_HISTORY
          { snapshot := demoSnap, label := "Old", timestamp := 0,
            coalesceKey := (none : Option String) }).drop
          (MAX_UNDO_HISTORY + 1 - MAX_UNDO_HISTORY) ++
        [{ snapshot := demoSnap, label := "New", timestamp := 1, coalesceKey := none }] := by
  constructor
  · exact history_cap_spec.1 (StoreOp.edit EditOp.addRow) 3 demoState (by decide) (by decide)
  · have h := history_cap_spec.2 (List.replicate MAX_UNDO_HISTORY
      { snapshot := demoSnap, label := "Old", timestamp := 0,
        coalesceKey := (none : Option String) })
      { snapshot := demoSnap, label := "New", timestamp := 1, coalesceKey := none }
      (by simp)
    simpa using h

/-!
## C10 — only undo populates the redo stack
-/

/-- **C10.** Every non-batch mutation (pushed or coalesced) leaves an empty
redo stack, so does an outermost commit with accumulated changes, and no
operation other than undo ever grows the redo stack. -/
theorem redo_stack_discipline :
    (∀ (label : String) (mu : Snapshot → Snapshot) (key : Option String) (now : ℤ)
        (s : GridState), s.batchDepth = 0 →
        (applyMutation label mu key now s).redoStack = [])
    ∧ (∀ (s : GridState) (now : ℤ) (snap : Snapshot),
        s.batchDepth ≤ 1 → s.batchSnapshot = some snap →
        (GridState.commitBatch now s).redoStack = [])
    ∧ (∀ (op : StoreOp) (now : ℤ) (s : GridState), op ≠ StoreOp.undo →
        (applyStore op now s).redoStack.length ≤ s.redoStack.length) := by
  refine ⟨?_, ?_, ?_⟩
  · intro label mu key now s hd
    rcases applyMutation_push_or_coalesce label mu key now s (by rw [hd]; exact lt_irrefl 0)
      with heq | ⟨top, _, heq⟩ <;> rw [heq]
  · intro s now snap hle hsnap
    rw [commitBatch_push now hle hsnap]
  · intro op now s hne
    cases op with
    | edit e =>
      rcases applyEdit_eq_self_or_mutation e now s with he | ⟨l, mu, k, he⟩
      · rw [applyStore, he]
      · rw [applyStore, he]
        by_cases hb : 0 < s.batchDepth
        · rw [applyMutation_batch l mu k now s hb]
        · rcases applyMutation_push_or_coalesce l mu k now s hb with heq | ⟨top, _, heq⟩ <;>
            · rw [heq]
              show ([] : List UndoEntry).length ≤ _
              simp
    | undo => exact absurd rfl hne
    | redo =>
      show (GridState.redo now s).redoStack.length ≤ _
      cases hgl : s.redoStack.getLast? with
      | none => rw [redo_of_empty now (List.getLast?_eq_none_iff.mp hgl)]
      | some top =>
        rw [redo_of_getLast now hgl]
        show s.redoStack.dropLast.length ≤ _
        rw [List.length_dropLast]
        omega
    | beginBatch label => exact le_refl _
    | commitBatch =>
      show (GridState.commitBatch now s).redoStack.length ≤ _
      by_cases hd : 1 < s.batchDepth
      · rw [commitBatch_nested now hd]
      · cases hsnap : s.batchSnapshot with
        | none => rw [commitBatch_noacc now (by omega) hsnap]
        | some snap =>
          rw [commitBatch_push now (by omega) hsnap]
          show ([] : List UndoEntry).length ≤ _
          simp

/-- Witness for `redo_stack_discipline` at concrete states. -/
theorem redo_stack_discipline_witness :
    (applyMutation "Edit Cell" (fun d => d) (some "cell:0:0") 500 demoEdited).redoStack = [] ∧
    (applyStore (StoreOp.edit EditOp.addRow) 3 demoEdited).redoStack.length ≤
      demoEdited.redoStack.length := by
  constructor
  · exact redo_stack_discipline.1 "Edit Cell" (fun d => d) (some "cell:0:0") 500 demoEdited rfl
  · exact redo_stack_discipline.2.2 (StoreOp.edit EditOp.addRow) 3 demoEdited (by simp)

/-!
## C6 — row/column relocation
-/

theorem jsSplice_remove_head {α : Type} (x : α) (l : List α) :
    jsSplice (x :: l) 0 1 [] = ([x], l) := by
  unfold jsSplice jsSpliceStart
  simp only [if_neg (by omega : ¬ (0:ℤ) < 0)]
  have h1 : min (Int.toNat 0) (x :: l).length = 0 := by simp
  have h2 : min (max (1:ℤ) 0).toNat ((x :: l).length - 0) = 1 := by
    simp only [List.length_cons]
    omega
  rw [h1, h2]
  simp

theorem jsSplice_insert_at_one {α : Type} (y : α) (l : List α) (items : List α) :
    jsSplice (y :: l) 1 0 items = ([], y :: (items ++ l)) := by
  unfold jsSplice jsSpliceStart
  simp only [if_neg (by omega : ¬ (1:ℤ) < 0)]
  have h1 : min (Int.toNat 1) (y :: l).length = 1 := by
    simp only [List.length_cons]
    omega
  have h2 : min (max (0:ℤ) 0).toNat ((y :: l).length - 1) = 0 := by
    simp only [List.length_cons]
    omega
  rw [h1, h2]
  simp

theorem moveReorder_zero_zero_two {α : Type} (x y : α) (r : List α) :
    moveReorder 0 0 2 (x :: y :: r) = y :: x :: r := by
  unfold moveReorder
  norm_num
  rw [jsSplice_remove_head]
  rw [jsSplice_insert_at_one]
  simp

/-- **C6.** `moveRows`/`moveColumns` are no-ops exactly on the destination
band `[fromStart, fromEnd + 1]` (in particular `moveRows 2 2 2` and
`moveRows 2 2 3`); outside that band the range is spliced out and
re-inserted at `toIndex − count` (when `toIndex > fromStart`, else at
`toIndex`), with `moveColumns` applying the identical relocation to the
headers and to every row; after `moveColumns 0 0 2` the value formerly at
column 0 of every row sits at column 1, in lockstep with its header. -/
theorem move_rows_columns_spec :
    (∀ (s : GridState) (now : ℤ) (a b t : ℕ), a ≤ t ∧ t ≤ b + 1 →
        GridState.moveRows a b t now s = s ∧ GridState.moveColumns a b t now s = s)
    ∧ (∀ (s : GridState) (now : ℤ),
        GridState.moveRows 2 2 2 now s = s ∧ GridState.moveRows 2 2 3 now s = s)
    ∧ (∀ (s : GridState) (now : ℤ) (a b t : ℕ), ¬(a ≤ t ∧ t ≤ b + 1) →
        s.batchDepth = 0 →
        (GridState.moveRows a b t now s).rows = moveReorder a b t s.rows ∧
        (GridState.moveRows a b t now s).undoStack = trimStack (s.undoStack ++
          [{ snapshot := s.toSnapshot, label := "Move Row(s)", timestamp := now,
             coalesceKey := none }]) ∧
        (GridState.moveColumns a b t now s).headers = moveReorder a b t s.headers ∧
        (GridState.moveColumns a b t now s).rows = s.rows.map (moveReorder a b t))
    ∧ (∀ (s : GridState) (now : ℤ),
        2 ≤ s.headers.length →
        (∀ row ∈ s.rows, row.length = s.headers.length) →
        s.batchDepth = 0 →
        (GridState.moveColumns 0 0 2 now s).headers.get? 1 = s.headers.get? 0 ∧
        ∀ i : ℕ,
          ((GridState.moveColumns 0 0 2 now s).rows.get? i).bind (fun r => r.get? 1) =
            (s.rows.get? i).bind (fun r => r.get? 0)) := by
  have hnoop : ∀ (s : GridState) (now : ℤ) (a b t : ℕ), a ≤ t ∧ t ≤ b + 1 →
      GridState.moveRows a b t now s = s ∧ GridState.moveColumns a b t now s = s := by
    intro s now a b t h
    constructor
    · unfold GridState.moveRows
      rw [if_pos h]
    · unfold GridState.moveColumns
      rw [if_pos h]
  have hmove : ∀ (s : GridState) (now : ℤ) (a b t : ℕ), ¬(a ≤ t ∧ t ≤ b + 1) →
      s.batchDepth = 0 →
      (GridState.moveRows a b t now s).rows = moveReorder a b t s.rows ∧
      (GridState.moveRows a b t now s).undoStack = trimStack (s.undoStack ++
        [{ snapshot := s.toSnapshot, label := "Move Row(s)", timestamp := now,
           coalesceKey := none }]) ∧
      (GridState.moveColumns a b t now s).headers = moveReorder a b t s.headers ∧
      (GridState.moveColumns a b t now s).rows = s.rows.map (moveReorder a b t) := by
    intro s now a b t h hd
    have hnb : ¬ 0 < s.batchDepth := by rw [hd]; exact lt_irrefl 0
    have hR : GridState.moveRows a b t now s =
        applyMutation "Move Row(s)"
          (fun draft =>
            let extracted := (jsSplice draft.rows a ((b : ℤ) - (a : ℤ) + 1) []).1
            let rest := (jsSplice draft.rows a ((b : ℤ) - (a : ℤ) + 1) []).2
            let insertAt : ℤ :=
              if a < t then (t : ℤ) - ((b : ℤ) - (a : ℤ) + 1) else (t : ℤ)
            { draft with rows := (jsSplice rest insertAt 0 extracted).2 })
          none now s := by
      unfold GridState.moveRows
      rw [if_neg h]
    have hC : GridState.moveColumns a b t now s =
        applyMutation "Move Column(s)"
          (fun draft =>
            let insertAt : ℤ :=
              if a < t then (t : ℤ) - ((b : ℤ) - (a : ℤ) + 1) else (t : ℤ)
            let extractedHeaders := (jsSplice draft.headers a ((b : ℤ) - (a : ℤ) + 1) []).1
            let restHeaders := (jsSplice draft.headers a ((b : ℤ) - (a : ℤ) + 1) []).2
            { draft with
              headers := (jsSplice restHeaders insertAt 0 extractedHeaders).2
              rows := draft.rows.map (fun row =>
                let extracted := (jsSplice row a ((b : ℤ) - (a : ℤ) + 1) []).1
                let rest := (jsSplice row a ((b : ℤ) - (a : ℤ) + 1) []).2
                (jsSplice rest insertAt 0 extracted).2) })
          none now s := by
      unfold GridState.moveColumns
      rw [if_neg h]
    refine ⟨?_, ?_, ?_, ?_⟩
    · rw [hR, applyMutation_push _ _ none now s hnb
        (fun k top hk _ => by exact absurd hk (by simp))]
      rfl
    · rw [hR, applyMutation_push _ _ none now s hnb
        (fun k top hk _ => by exact absurd hk (by simp))]
    · rw [hC, applyMutation_push _ _ none now s hnb
        (fun k top hk _ => by exact absurd hk (by simp))]
      rfl
    · rw [hC, applyMutation_push _ _ none now s hnb
        (fun k top hk _ => by exact absurd hk (by simp))]
      rfl
  refine ⟨hnoop, ?_, hmove, ?_⟩
  · intro s now
    exact ⟨(hnoop s now 2 2 2 (by omega)).1, (hnoop s now 2 2 3 (by omega)).1⟩
  · intro s now hlen hrows hd
    have hm := hmove s now 0 0 2 (by omega) hd
    have hh := hm.2.2.1
    have hr := hm.2.2.2
    obtain ⟨h0, rest0, hhd⟩ : ∃ h0 r, s.headers = h0 :: r := by
      cases hcase : s.headers with
      | nil => rw [hcase] at hlen; simp at hlen
      | cons h0 r => exact ⟨h0, r, rfl⟩
    obtain ⟨h1, rest1, hhd1⟩ : ∃ h1 r1, rest0 = h1 :: r1 := by
      cases hcase : rest0 with
      | nil => rw [hhd, hcase] at hlen; simp at hlen
      | cons h1 r1 => exact ⟨h1, r1, rfl⟩
    constructor
    · rw [hh, hhd, hhd1, moveReorder_zero_zero_two]
      rfl
    · intro i
      rw [hr, List.get?_map]
      cases hrow : s.rows.get? i with
      | none => rfl
      | some row =>
        have hmem : row ∈ s.rows := List.get?_mem hrow
        have hlrow : row.length = s.headers.length := hrows row hmem
        obtain ⟨x, r0, hx⟩ : ∃ x r0, row = x :: r0 := by
          cases hcase : row with
          | nil => rw [hcase, hhd] at hlrow; simp at hlrow
          | cons x r0 => exact ⟨x, r0, rfl⟩
        obtain ⟨y, r1, hy⟩ : ∃ y r1, r0 = y :: r1 := by
          cases hcase : r0 with
          | nil => rw [hx, hcase, hhd, hhd1] at hlrow; simp at hlrow
          | cons y r1 => exact ⟨y, r1, rfl⟩
        rw [hx, hy]
        simp [moveReorder_zero_zero_two]

/-- Witness for `move_rows_columns_spec` on a three-column snapshot. -/
theorem move_rows_columns_spec_witness :
    GridState.moveRows 2 2 2 7 demoState = demoState ∧
    (GridState.moveColumns 0 0 2 7 (initialState
        { headers := ["A", "B", "C"],
          rows := [[Cell.str "1", Cell.str "2", Cell.str "3"]],
          delimiter := ",", newline := Newline.lf, filePath := none })).headers.get? 1 =
      (initialState
        { headers := ["A", "B", "C"],
          rows := [[Cell.str "1", Cell.str "2", Cell.str "3"]],
          delimiter := ",", newline := Newline.lf, filePath := none }).headers.get? 0 := by
  constructor
  · exact (move_rows_columns_spec.2.1 demoState 7).1
  · exact (move_rows_columns_spec.2.2.2 (initialState
      { headers := ["A", "B", "C"],
        rows := [[Cell.str "1", Cell.str "2", Cell.str "3"]],
        delimiter := ",", newline := Newline.lf, filePath := none }) 7
      (by decide) (by decide) rfl).1


/-!
## C5 — the row-length invariant under mutations
-/

theorem jsSpliceStart_le (len : ℕ) (start : ℤ) : jsSpliceStart len start ≤ len := by
  unfold jsSpliceStart
  split
  · omega
  · omega

theorem jsSplice_snd_length {α : Type} (l : List α) (start del : ℤ) (items : List α) :
    (jsSplice l start del items).2.length =
      l.length - min (max del 0).toNat (l.length - jsSpliceStart l.length start) +
        items.length := by
  have hs := jsSpliceStart_le l.length start
  unfold jsSplice
  simp only [List.length_append, List.length_take, List.length_drop]
  omega

theorem jsSplice_fst_subset {α : Type} {l items : List α} {start del : ℤ} {x : α}
    (h : x ∈ (jsSplice l start del items).1) : x ∈ l := by
  unfold jsSplice at h
  simp only at h
  exact List.mem_of_mem_drop (List.mem_of_mem_take h)

theorem jsSplice_snd_mem {α : Type} {l items : List α} {start del : ℤ} {x : α}
    (h : x ∈ (jsSplice l start del items).2) : x ∈ l ∨ x ∈ items := by
  unfold jsSplice at h
  simp only [List.mem_append] at h
  rcases h with (h | h) | h
  · exact Or.inl (List.mem_of_mem_take h)
  · exact Or.inr h
  · exact Or.inl (List.mem_of_mem_drop h)

theorem jsSplice_fst_length {α : Type} (l : List α) (start del : ℤ) (items : List α) :
    (jsSplice l start del items).1.length =
      min (max del 0).toNat (l.length - jsSpliceStart l.length start) := by
  have hs := jsSpliceStart_le l.length start
  unfold jsSplice
  simp only [List.length_take, List.length_drop]
  omega

theorem listSetExtend_of_lt {α : Type} {l : List α} {i : ℕ} (v filler : α)
    (h : i < l.length) : listSetExtend l i v filler = l.set i v := by
  unfold listSetExtend
  rw [if_pos h]

theorem moveReorder_length {α : Type} (a b t : ℕ) (l : List α) :
    (moveReorder a b t l).length = l.length := by
  unfold moveReorder
  rw [jsSplice_snd_length, jsSplice_fst_length, jsSplice_snd_length]
  have h1 := jsSpliceStart_le l.length (a : ℤ)
  have h2 := jsSpliceStart_le
    (l.length - min (max ((b : ℤ) - (a : ℤ) + 1) 0).toNat (l.length - jsSpliceStart l.length a) +
      ([] : List α).length)
    (if a < t then (t : ℤ) - ((b : ℤ) - (a : ℤ) + 1) else (t : ℤ))
  simp only [List.length_nil] at h2 ⊢
  omega

theorem moveReorder_mem {α : Type} {a b t : ℕ} {l : List α} {x : α}
    (h : x ∈ moveReorder a b t l) : x ∈ l := by
  unfold moveReorder at h
  simp only at h
  rcases jsSplice_snd_mem h with h2 | h2
  · rcases jsSplice_snd_mem h2 with h3 | h3
    · exact h3
    · simp at h3
  · exact jsSplice_fst_subset h2


theorem enumFrom_filter_ne_length {α : Type} :
    ∀ (l : List α) (n k : ℕ),
      (((List.enumFrom n l).filter (fun p => p.1 ≠ k)).map Prod.snd).length =
        l.length - (if n ≤ k ∧ k < n + l.length then 1 else 0) := by
  intro l
  induction l with
  | nil =>
    intro n k
    simp
  | cons x xs ih =>
    intro n k
    by_cases hnk : n = k
    · subst hnk
      simp only [List.enumFrom_cons, List.filter_cons]
      rw [if_neg (by simp)]
      rw [ih (n + 1) n]
      rw [if_neg (by omega)]
      rw [if_pos (by simp only [List.length_cons]; omega)]
      simp only [List.length_cons]
      omega
    · simp only [List.enumFrom_cons, List.filter_cons]
      rw [if_pos (by simpa using hnk)]
      simp only [List.map_cons, List.length_cons]
      rw [ih (n + 1) k]
      by_cases hk : n + 1 ≤ k ∧ k < n + 1 + xs.length
      · rw [if_pos hk, if_pos (by omega)]
        omega
      · rw [if_neg hk, if_neg (by omega)]
        omega

/-- The per-row body of `removeColumn` drops exactly one cell when the
column index is in range, and nothing otherwise. -/
theorem removeColumn_row_length {α : Type} (l : List α) (c : ℕ) :
    ((l.enum.filter (fun p => p.1 ≠ c)).map Prod.snd).length =
      l.length - (if c < l.length then 1 else 0) := by
  have h := enumFrom_filter_ne_length l 0 c
  simp only [List.enum] at h ⊢
  rw [h]
  congr 1
  by_cases hc : c < l.length
  · rw [if_pos (by omega), if_pos hc]
  · rw [if_neg (by omega), if_neg hc]

/-- Under the invariant, a freshly inserted row is sized to the header
count. -/
theorem snapColumnCount_of_inv {snap : Snapshot} (hI : RowLengthInv snap) :
    snapColumnCount snap = snap.headers.length := by
  unfold snapColumnCount
  split
  · rename_i h
    rw [h]
    cases hr : snap.rows.get? 0 with
    | none => rfl
    | some row0 =>
      simp only [Option.getD_some]
      rw [hI row0 (List.get?_mem hr), h]
  · rfl

/-- Every branch of `applyMutation` installs the mutated snapshot. -/
theorem applyMutation_toSnapshot (label : String) (mu : Snapshot → Snapshot)
    (key : Option String) (now : ℤ) (s : GridState) :
    (applyMutation label mu key now s).toSnapshot = mu s.toSnapshot := by
  by_cases h : 0 < s.batchDepth
  · rw [applyMutation_batch label mu key now s h]
  · rcases applyMutation_push_or_coalesce label mu key now s h with heq | ⟨top, _, heq⟩ <;>
      rw [heq]


theorem setCell_snapshot_inv {snap : Snapshot} (r c : ℕ) (v : Cell)
    (hI : RowLengthInv snap) (hr : r < snap.rows.length) (hc : c < snap.headers.length) :
    RowLengthInv
      { snap with
        rows := listSetExtend snap.rows r
          (listSetExtend ((snap.rows.get? r).getD []) c v Cell.undef) [] } := by
  obtain ⟨rowr, hrowr⟩ : ∃ rowr, snap.rows.get? r = some rowr := by
    cases hg : snap.rows.get? r with
    | none =>
      rw [List.get?_eq_none] at hg
      omega
    | some rowr => exact ⟨rowr, rfl⟩
  have hrowrlen : rowr.length = snap.headers.length := hI rowr (List.get?_mem hrowr)
  intro row hrow
  simp only [hrowr, Option.getD_some] at hrow
  rw [listSetExtend_of_lt _ _ hr] at hrow
  rw [listSetExtend_of_lt _ _ (by omega : c < rowr.length)] at hrow
  rcases List.mem_or_eq_of_mem_set hrow with hmem | heq
  · exact hI row hmem
  · rw [heq, List.length_set]
    exact hrowrlen

theorem updateCell_preserves_inv {s : GridState} (now : ℤ) {r c : ℕ} (v : Cell)
    (hI : RowLengthInv s.toSnapshot) (hr : r < s.rows.length) (hc : c < s.headers.length) :
    RowLengthInv (GridState.updateCell r c v now s).toSnapshot := by
  unfold GridState.updateCell
  dsimp only
  split
  · exact hI
  · rw [applyMutation_toSnapshot]
    exact setCell_snapshot_inv r c v hI hr hc

theorem updateHeader_preserves_inv {s : GridState} (now : ℤ) {c : ℕ} (v : String)
    (hI : RowLengthInv s.toSnapshot) (hc : c < s.headers.length) :
    RowLengthInv (GridState.updateHeader c v now s).toSnapshot := by
  unfold GridState.updateHeader
  split
  · exact hI
  · rw [applyMutation_toSnapshot]
    intro row hrow
    show row.length = (listSetExtend s.toSnapshot.headers c v "").length
    rw [listSetExtend_of_lt _ _ hc, List.length_set]
    exact hI row hrow

theorem addRow_preserves_inv {s : GridState} (now : ℤ)
    (hI : RowLengthInv s.toSnapshot) :
    RowLengthInv (GridState.addRow now s).toSnapshot := by
  unfold GridState.addRow
  rw [applyMutation_toSnapshot]
  intro row hrow
  simp only [List.mem_append, List.mem_singleton] at hrow
  rcases hrow with hmem | heq
  · exact hI row hmem
  · rw [heq, List.length_replicate]
    exact snapColumnCount_of_inv hI

theorem addColumn_preserves_inv {s : GridState} (now : ℤ)
    (hI : RowLengthInv s.toSnapshot) :
    RowLengthInv (GridState.addColumn now s).toSnapshot := by
  unfold GridState.addColumn
  rw [applyMutation_toSnapshot]
  intro row hrow
  simp only [List.mem_map] at hrow
  obtain ⟨r0, hr0, heq⟩ := hrow
  show row.length = (s.toSnapshot.headers ++ [_]).length
  rw [← heq]
  simp only [List.length_append, List.length_singleton]
  rw [hI r0 hr0]

theorem insertRowAt_preserves_inv {s : GridState} (i : ℕ) (now : ℤ)
    (hI : RowLengthInv s.toSnapshot) :
    RowLengthInv (GridState.insertRowAt i now s).toSnapshot := by
  unfold GridState.insertRowAt
  rw [applyMutation_toSnapshot]
  intro row hrow
  rcases jsSplice_snd_mem hrow with hmem | hnew
  · exact hI row hmem
  · simp only [List.mem_singleton] at hnew
    rw [hnew, List.length_replicate]
    exact snapColumnCount_of_inv hI

theorem insertColumnAt_preserves_inv {s : GridState} (c : ℕ) (now : ℤ)
    (hI : RowLengthInv s.toSnapshot) :
    RowLengthInv (GridState.insertColumnAt c now s).toSnapshot := by
  unfold GridState.insertColumnAt
  rw [applyMutation_toSnapshot]
  intro row hrow
  simp only [List.mem_map] at hrow
  obtain ⟨r0, hr0, heq⟩ := hrow
  show row.length = (jsSplice s.toSnapshot.headers c 0 [_]).2.length
  rw [← heq, jsSplice_snd_length, jsSplice_snd_length]
  simp only [List.length_singleton]
  rw [hI r0 hr0]

theorem removeRow_preserves_inv {s : GridState} (i : ℕ) (now : ℤ)
    (hI : RowLengthInv s.toSnapshot) :
    RowLengthInv (GridState.removeRow i now s).toSnapshot := by
  unfold GridState.removeRow
  rw [applyMutation_toSnapshot]
  intro row hrow
  rcases jsSplice_snd_mem hrow with hmem | hnew
  · exact hI row hmem
  · simp at hnew

theorem removeColumn_preserves_inv {s : GridState} (c : ℕ) (now : ℤ)
    (hI : RowLengthInv s.toSnapshot) :
    RowLengthInv (GridState.removeColumn c now s).toSnapshot := by
  unfold GridState.removeColumn
  rw [applyMutation_toSnapshot]
  intro row hrow
  simp only [List.mem_map] at hrow
  obtain ⟨r0, hr0, heq⟩ := hrow
  show row.length = (jsSplice s.toSnapshot.headers c 1 []).2.length
  rw [← heq, removeColumn_row_length, jsSplice_snd_length]
  simp only [List.length_nil]
  have h1 := jsSpliceStart_le s.toSnapshot.headers.length (c : ℤ)
  have h2 : jsSpliceStart s.toSnapshot.headers.length (c : ℤ) =
      min c s.toSnapshot.headers.length := by
    unfold jsSpliceStart
    rw [if_neg (by omega)]
    simp
  rw [hI r0 hr0, h2]
  by_cases hc : c < s.toSnapshot.headers.length
  · rw [if_pos hc]
    omega
  · rw [if_neg hc]
    omega


theorem moveRows_preserves_inv {s : GridState} (a b t : ℕ) (now : ℤ)
    (hI : RowLengthInv s.toSnapshot) :
    RowLengthInv (GridState.moveRows a b t now s).toSnapshot := by
  unfold GridState.moveRows
  split
  · exact hI
  · rw [applyMutation_toSnapshot]
    intro row hrow
    rcases jsSplice_snd_mem hrow with hmem | hext
    · rcases jsSplice_snd_mem hmem with hmem2 | hnil
      · exact hI row hmem2
      · simp at hnil
    · exact hI row (jsSplice_fst_subset hext)

theorem moveColumns_preserves_inv {s : GridState} (a b t : ℕ) (now : ℤ)
    (hI : RowLengthInv s.toSnapshot) :
    RowLengthInv (GridState.moveColumns a b t now s).toSnapshot := by
  unfold GridState.moveColumns
  split
  · exact hI
  · rw [applyMutation_toSnapshot]
    intro row hrow
    simp only [List.mem_map] at hrow
    obtain ⟨r0, hr0, heq⟩ := hrow
    show row.length = (moveReorder a b t s.toSnapshot.headers).length
    rw [← heq]
    show (moveReorder a b t r0).length = (moveReorder a b t s.toSnapshot.headers).length
    rw [moveReorder_length, moveReorder_length]
    exact hI r0 hr0

theorem replaceAllStep_inv (term repl : String) {d : Snapshot} (m : ℤ × ℕ)
    (hI : RowLengthInv d)
    (hm : (m.1 = -1 ∧ m.2 < d.headers.length) ∨
      (0 ≤ m.1 ∧ m.1.toNat < d.rows.length ∧ m.2 < d.headers.length)) :
    RowLengthInv (replaceAllStep term repl d m) ∧
    (replaceAllStep term repl d m).headers.length = d.headers.length ∧
    (replaceAllStep term repl d m).rows.length = d.rows.length := by
  unfold replaceAllStep
  rcases hm with ⟨h1, h2⟩ | ⟨h1, h2, h3⟩
  · rw [if_pos h1]
    refine ⟨?_, ?_, rfl⟩
    · intro row hrow
      show row.length = (listSetExtend d.headers m.2 _ "").length
      rw [listSetExtend_of_lt _ _ h2, List.length_set]
      exact hI row hrow
    · show (listSetExtend d.headers m.2 _ "").length = _
      rw [listSetExtend_of_lt _ _ h2, List.length_set]
  · rw [if_neg (by omega), if_pos h1]
    refine ⟨?_, rfl, ?_⟩
    · exact setCell_snapshot_inv m.1.toNat m.2 _ hI h2 h3
    · show (listSetExtend d.rows m.1.toNat _ []).length = _
      rw [listSetExtend_of_lt _ _ h2, List.length_set]

theorem replaceAll_preserves_inv (term repl : String) (ml : List (ℤ × ℕ)) (now : ℤ)
    {s : GridState} (hI : RowLengthInv s.toSnapshot)
    (hm : ∀ m ∈ ml, (m.1 = -1 ∧ m.2 < s.headers.length) ∨
      (0 ≤ m.1 ∧ m.1.toNat < s.rows.length ∧ m.2 < s.headers.length)) :
    RowLengthInv (GridState.replaceAll term repl ml now s).toSnapshot := by
  unfold GridState.replaceAll
  split
  · exact hI
  · rw [applyMutation_toSnapshot]
    show RowLengthInv (ml.foldl (replaceAllStep term repl) s.toSnapshot)
    have main : ∀ (l : List (ℤ × ℕ)) (d : Snapshot), RowLengthInv d →
        d.headers.length = s.headers.length → d.rows.length = s.rows.length →
        (∀ m ∈ l, (m.1 = -1 ∧ m.2 < s.headers.length) ∨
          (0 ≤ m.1 ∧ m.1.toNat < s.rows.length ∧ m.2 < s.headers.length)) →
        RowLengthInv (l.foldl (replaceAllStep term repl) d) := by
      intro l
      induction l with
      | nil =>
        intro d hId _ _ _
        exact hId
      | cons m rest ih =>
        intro d hId hH hR hml
        have hmd : (m.1 = -1 ∧ m.2 < d.headers.length) ∨
            (0 ≤ m.1 ∧ m.1.toNat < d.rows.length ∧ m.2 < d.headers.length) := by
          rcases hml m (by simp) with ⟨x1, x2⟩ | ⟨x1, x2, x3⟩
          · exact Or.inl ⟨x1, by omega⟩
          · exact Or.inr ⟨x1, by omega, by omega⟩
        obtain ⟨hs1, hs2, hs3⟩ := replaceAllStep_inv term repl m hId hmd
        simp only [List.foldl_cons]
        exact ih (replaceAllStep term repl d m) hs1 (by omega) (by omega)
          (fun m2 hm2 => hml m2 (by simp [hm2]))
    exact main ml s.toSnapshot hI rfl rfl hm


/-- **C5 (counterexample).** On the invariant-satisfying one-column snapshot,
`updateCell(0, 1, "x")` — an out-of-range column index — extends row 0 by JS
array assignment and breaks the row-length invariant, contradicting the
claim that arbitrary out-of-range mutations keep every row's length equal to
the header count. -/
theorem row_length_invariant_counterexample :
    RowLengthInv demoSnap ∧
    ¬ RowLengthInv (GridState.updateCell 0 1 (Cell.str "x") 0 demoState).toSnapshot := by
  constructor
  · decide
  · decide

/-- **C5 (amended).** Every mutation operation is total in the model (no
exceptions exist to throw), and preserves the row-length invariant: the
structural operations — add/insert/remove row or column, `moveRows`,
`moveColumns` — for arbitrary (nonnegative) indices, and `updateCell`,
`updateHeader`, `replaceAll` when their targets are within bounds;
out-of-range cell/header writes can break it (see the counterexample). -/
theorem mutations_preserve_row_length_inv :
    (∀ (s : GridState) (now : ℤ) (r c : ℕ) (v : Cell),
        RowLengthInv s.toSnapshot → r < s.rows.length → c < s.headers.length →
        RowLengthInv (GridState.updateCell r c v now s).toSnapshot)
    ∧ (∀ (s : GridState) (now : ℤ) (c : ℕ) (v : String),
        RowLengthInv s.toSnapshot → c < s.headers.length →
        RowLengthInv (GridState.updateHeader c v now s).toSnapshot)
    ∧ (∀ (s : GridState) (now : ℤ), RowLengthInv s.toSnapshot →
        RowLengthInv (GridState.addRow now s).toSnapshot ∧
        RowLengthInv (GridState.addColumn now s).toSnapshot)
    ∧ (∀ (s : GridState) (now : ℤ) (i : ℕ), RowLengthInv s.toSnapshot →
        RowLengthInv (GridState.insertRowAt i now s).toSnapshot ∧
        RowLengthInv (GridState.insertColumnAt i now s).toSnapshot ∧
        RowLengthInv (GridState.removeRow i now s).toSnapshot ∧
        RowLengthInv (GridState.removeColumn i now s).toSnapshot)
    ∧ (∀ (s : GridState) (now : ℤ) (a b t : ℕ), RowLengthInv s.toSnapshot →
        RowLengthInv (GridState.moveRows a b t now s).toSnapshot ∧
        RowLengthInv (GridState.moveColumns a b t now s).toSnapshot)
    ∧ (∀ (s : GridState) (now : ℤ) (term repl : String) (ml : List (ℤ × ℕ)),
        RowLengthInv s.toSnapshot →
        (∀ m ∈ ml, (m.1 = -1 ∧ m.2 < s.headers.length) ∨
          (0 ≤ m.1 ∧ m.1.toNat < s.rows.length ∧ m.2 < s.headers.length)) →
        RowLengthInv (GridState.replaceAll term repl ml now s).toSnapshot) := by
  refine ⟨?_, ?_, ?_, ?_, ?_, ?_⟩
  · intro s now r c v hI hr hc
    exact updateCell_preserves_inv now v hI hr hc
  · intro s now c v hI hc
    exact updateHeader_preserves_inv now v hI hc
  · intro s now hI
    exact ⟨addRow_preserves_inv now hI, addColumn_preserves_inv now hI⟩
  · intro s now i hI
    exact ⟨insertRowAt_preserves_inv i now hI, insertColumnAt_preserves_inv i now hI,
      removeRow_preserves_inv i now hI, removeColumn_preserves_inv i now hI⟩
  · intro s now a b t hI
    exact ⟨moveRows_preserves_inv a b t now hI, moveColumns_preserves_inv a b t now hI⟩
  · intro s now term repl ml hI hm
    exact replaceAll_preserves_inv term repl ml now hI hm

/-- Witness for `mutations_preserve_row_length_inv` at concrete in-range and
structural calls. -/
theorem mutations_preserve_row_length_inv_witness :
    RowLengthInv (GridState.updateCell 0 0 (Cell.str "z") 0 demoState).toSnapshot ∧
    RowLengthInv (GridState.insertColumnAt 5 0 demoState).toSnapshot ∧
    RowLengthInv (GridState.replaceAll "x" "y" [(0, 0), (-1, 0)] 0 demoState).toSnapshot := by
  refine ⟨?_, ?_, ?_⟩
  · exact mutations_preserve_row_length_inv.1 demoState 0 0 0 (Cell.str "z")
      (by decide) (by decide) (by decide)
  · exact (mutations_preserve_row_length_inv.2.2.2.1 demoState 0 5 (by decide)).2.1
  · exact mutations_preserve_row_length_inv.2.2.2.2.2 demoState 0 "x" "y" [(0, 0), (-1, 0)]
      (by decide) (by decide)


/-!
## C7 — typed filter predicates: cell-parse failure vs query-parse failure
-/

theorem dropWhile_idem (p : Char → Bool) (l : List Char) :
    (l.dropWhile p).dropWhile p = l.dropWhile p := by
  induction l with
  | nil => rfl
  | cons a t ih =>
    by_cases h : p a
    · rw [List.dropWhile_cons, if_pos h]
      exact ih
    · rw [List.dropWhile_cons, if_neg h, List.dropWhile_cons, if_neg h]

theorem head_dropWhile_false (p : Char → Bool) (l : List Char) {a : Char} {t : List Char}
    (h : l.dropWhile p = a :: t) : p a = false := by
  induction l with
  | nil => simp at h
  | cons b l2 ih =>
    rw [List.dropWhile_cons] at h
    by_cases hb : p b
    · rw [if_pos hb] at h
      exact ih h
    · rw [if_neg hb] at h
      injection h with h1 _
      rw [← h1]
      exact Bool.eq_false_iff.mpr hb

theorem trimL_dropWhile (p : Char → Bool) (l : List Char) :
    (trimL p l).dropWhile p = trimL p l := by
  cases hm2 : trimL p l with
  | nil => rfl
  | cons a t =>
    rw [List.dropWhile_cons]
    have hpre : trimL p l <+: l.dropWhile p := by
      apply List.reverse_suffix.mp
      unfold trimL
      rw [List.reverse_reverse]
      exact List.dropWhile_suffix p
    obtain ⟨rest, hrest⟩ := hpre
    rw [hm2] at hrest
    have hfalse : p a = false := head_dropWhile_false p l hrest.symm
    rw [if_neg (by simp [hfalse]), ← hm2]

theorem trimL_idem (p : Char → Bool) (l : List Char) :
    trimL p (trimL p l) = trimL p l := by
  have h1 : (trimL p l).dropWhile p = trimL p l := trimL_dropWhile p l
  show (((trimL p l).dropWhile p).reverse.dropWhile p).reverse = trimL p l
  rw [h1]
  have h2 : (trimL p l).reverse.dropWhile p = (trimL p l).reverse := by
    have hrev : (trimL p l).reverse = (l.dropWhile p).reverse.dropWhile p := by
      unfold trimL
      rw [List.reverse_reverse]
    rw [hrev, dropWhile_idem, ← hrev]
  rw [h2, List.reverse_reverse]

theorem jsTrim_idem (s : String) : jsTrim (jsTrim s) = jsTrim s := by
  have hlist : (String.mk (trimL isJsSpace s.toList)).toList = trimL isJsSpace s.toList := rfl
  show String.mk (trimL isJsSpace (String.mk (trimL isJsSpace s.toList)).toList) =
    String.mk (trimL isJsSpace s.toList)
  rw [hlist, trimL_idem]

theorem parseNumber_jsTrim (s : String) :
    Filtering.parseNumber (jsTrim s) = Filtering.parseNumber s := by
  unfold Filtering.parseNumber
  rw [jsTrim_idem]

theorem parseDate_jsTrim (s : String) :
    Filtering.parseDate (jsTrim s) = Filtering.parseDate s := by
  unfold Filtering.parseDate
  rw [jsTrim_idem]

section RatEval

attribute [local semireducible] Rat.mul Rat.add Rat.sub Rat.inv

/-- **C7.** On a number-typed column a cell that fails the numeric parse
never matches any non-empty query (no containment fallback), while a query
that fails every numeric grammar form (range, comparator, bare number)
degrades to case-insensitive containment; the same asymmetry holds for
date-typed columns with the date grammar (range, before/after/on,
comparator, bare date).  Concretely, `>=10` over the cells
`["5", "10", "15", "abc"]` matches exactly `"10"` and `"15"`. -/
theorem typed_filter_fallback_spec :
    (∀ (cell : Cell) (q : String) (p : ColumnProfile),
        p.inferredType = ColumnInferredType.number →
        (jsTrim q).isEmpty = false →
        Filtering.parseNumber (cellToStr cell) = none →
        Filtering.evaluateCellFilter cell q (some p) = false)
    ∧ (∀ (cell : Cell) (q : String) (p : ColumnProfile) (v : ℚ),
        p.inferredType = ColumnInferredType.number →
        Filtering.parseNumber (cellToStr cell) = some v →
        Filtering.numericQueryUnparseable q = true →
        Filtering.evaluateCellFilter cell q (some p) = matchContains cell q)
    ∧ (∀ (cell : Cell) (q : String) (p : ColumnProfile),
        p.inferredType = ColumnInferredType.date →
        (jsTrim q).isEmpty = false →
        Filtering.parseDate (cellToStr cell) = none →
        Filtering.evaluateCellFilter cell q (some p) = false)
    ∧ (∀ (cell : Cell) (q : String) (p : ColumnProfile) (v : ℤ),
        p.inferredType = ColumnInferredType.date →
        Filtering.parseDate (cellToStr cell) = some v →
        Filtering.dateQueryUnparseable q = true →
        Filtering.evaluateCellFilter cell q (some p) = matchContains cell q)
    ∧ ((Filtering.evaluateCellFilter (Cell.str "5") ">=10" (some
          { inferredType := ColumnInferredType.number, confidence := 1, nonNullCount := 4,
            nullCount := 0, parseableCount := ⟨4, 0, 1⟩, invalidExamples := [] }) = false)
      ∧ (Filtering.evaluateCellFilter (Cell.str "10") ">=10" (some
          { inferredType := ColumnInferredType.number, confidence := 1, nonNullCount := 4,
            nullCount := 0, parseableCount := ⟨4, 0, 1⟩, invalidExamples := [] }) = true)
      ∧ (Filtering.evaluateCellFilter (Cell.str "15") ">=10" (some
          { inferredType := ColumnInferredType.number, confidence := 1, nonNullCount := 4,
            nullCount := 0, parseableCount := ⟨4, 0, 1⟩, invalidExamples := [] }) = true)
      ∧ (Filtering.evaluateCellFilter (Cell.str "abc") ">=10" (some
          { inferredType := ColumnInferredType.number, confidence := 1, nonNullCount := 4,
            nullCount := 0, parseableCount := ⟨4, 0, 1⟩, invalidExamples := [] }) = false)) := by
  have hnum : ∀ (cell : Cell) (q : String) (p : ColumnProfile),
      p.inferredType = ColumnInferredType.number →
      (jsTrim q).isEmpty = false →
      Filtering.evaluateCellFilter cell q (some p) =
        match Filtering.evaluateNumericQuery cell q with
        | none => matchContains cell q
        | some r => r := by
    intro cell q p hp hq
    unfold Filtering.evaluateCellFilter
    rw [if_neg (by rw [hq]; exact Bool.false_ne_true)]
    rw [if_pos (by simp [hp])]
  have hdate : ∀ (cell : Cell) (q : String) (p : ColumnProfile),
      p.inferredType = ColumnInferredType.date →
      (jsTrim q).isEmpty = false →
      Filtering.evaluateCellFilter cell q (some p) =
        match Filtering.evaluateDateQuery cell q with
        | none => matchContains cell q
        | some r => r := by
    intro cell q p hp hq
    unfold Filtering.evaluateCellFilter
    rw [if_neg (by rw [hq]; exact Bool.false_ne_true)]
    rw [if_neg (by simp [hp])]
    rw [if_pos (by simp [hp])]
  refine ⟨?_, ?_, ?_, ?_, by decide, by decide, by decide, by decide⟩
  · intro cell q p hp hq hcell
    rw [hnum cell q p hp hq]
    have hval : Filtering.evaluateNumericQuery cell q = some false := by
      unfold Filtering.evaluateNumericQuery
      dsimp only
      rw [parseNumber_jsTrim, hcell]
    rw [hval]
  · intro cell q p v hp hcell hqu
    have hq : (jsTrim q).isEmpty = false := by
      cases hq0 : (jsTrim q).isEmpty with
      | false => rfl
      | true =>
        unfold Filtering.numericQueryUnparseable at hqu
        rw [if_pos hq0] at hqu
        exact absurd hqu Bool.false_ne_true
    rw [hnum cell q p hp hq]
    have hnull : Filtering.evaluateNumericQuery cell q = none := by
      unfold Filtering.evaluateNumericQuery
      dsimp only
      rw [parseNumber_jsTrim, hcell]
      dsimp only
      rw [if_neg (by rw [hq]; exact Bool.false_ne_true)]
      unfold Filtering.numericQueryUnparseable at hqu
      rw [if_neg (by rw [hq]; exact Bool.false_ne_true)] at hqu
      cases hb : Filtering.jsMatchBetween (jsTrim q) with
      | some pr =>
        obtain ⟨lo, hi⟩ := pr
        rw [hb] at hqu
        dsimp only at hqu ⊢
        simp only [Bool.or_eq_true, decide_eq_true_eq] at hqu
        rcases hqu with hlo | hhi
        · rw [hlo]
        · rw [hhi]
          cases Filtering.parseNumber lo <;> rfl
      | none =>
        rw [hb] at hqu
        dsimp only at hqu ⊢
        cases ho : Filtering.jsMatchOp (jsTrim q) with
        | some pr =>
          obtain ⟨op, rest⟩ := pr
          rw [ho] at hqu
          dsimp only at hqu ⊢
          simp only [decide_eq_true_eq] at hqu
          rw [hqu]
        | none =>
          rw [ho] at hqu
          dsimp only at hqu ⊢
          simp only [decide_eq_true_eq] at hqu
          rw [hqu]
    rw [hnull]
  · intro cell q p hp hq hcell
    rw [hdate cell q p hp hq]
    have hval : Filtering.evaluateDateQuery cell q = some false := by
      unfold Filtering.evaluateDateQuery
      dsimp only
      rw [parseDate_jsTrim, hcell]
    rw [hval]
  · intro cell q p v hp hcell hqu
    have hq : (jsTrim q).isEmpty = false := by
      cases hq0 : (jsTrim q).isEmpty with
      | false => rfl
      | true =>
        unfold Filtering.dateQueryUnparseable at hqu
        rw [if_pos hq0] at hqu
        exact absurd hqu Bool.false_ne_true
    rw [hdate cell q p hp hq]
    have hnull : Filtering.evaluateDateQuery cell q = none := by
      unfold Filtering.evaluateDateQuery
      dsimp only
      rw [parseDate_jsTrim, hcell]
      dsimp only
      rw [if_neg (by rw [hq]; exact Bool.false_ne_true)]
      unfold Filtering.dateQueryUnparseable at hqu
      rw [if_neg (by rw [hq]; exact Bool.false_ne_true)] at hqu
      cases hb : Filtering.jsMatchBetween (jsTrim q) with
      | some pr =>
        obtain ⟨lo, hi⟩ := pr
        rw [hb] at hqu
        dsimp only at hqu ⊢
        simp only [Bool.or_eq_true, decide_eq_true_eq] at hqu
        rcases hqu with hlo | hhi
        · rw [hlo]
        · rw [hhi]
          cases Filtering.parseDate lo <;> rfl
      | none =>
        rw [hb] at hqu
        dsimp only at hqu ⊢
        cases hk : Filtering.jsMatchKeyword (jsTrim q) with
        | some pr =>
          obtain ⟨kw, rest⟩ := pr
          rw [hk] at hqu
          dsimp only at hqu ⊢
          simp only [decide_eq_true_eq] at hqu
          rw [hqu]
        | none =>
          rw [hk] at hqu
          dsimp only at hqu ⊢
          cases ho : Filtering.jsMatchOp (jsTrim q) with
          | some pr =>
            obtain ⟨op, rest⟩ := pr
            rw [ho] at hqu
            dsimp only at hqu ⊢
            simp only [decide_eq_true_eq] at hqu
            rw [hqu]
          | none =>
            rw [ho] at hqu
            dsimp only at hqu ⊢
            simp only [decide_eq_true_eq] at hqu
            rw [hqu]
    rw [hnull]

/-- Witness for `typed_filter_fallback_spec` at concrete cells and queries. -/
theorem typed_filter_fallback_spec_witness :
    (Filtering.evaluateCellFilter (Cell.str "abc") ">=10" (some
        { inferredType := ColumnInferredType.number, confidence := 1, nonNullCount := 4,
          nullCount := 0, parseableCount := ⟨4, 0, 1⟩, invalidExamples := [] }) = false)
    ∧ (Filtering.evaluateCellFilter (Cell.str "5") "hello" (some
        { inferredType := ColumnInferredType.number, confidence := 1, nonNullCount := 4,
          nullCount := 0, parseableCount := ⟨4, 0, 1⟩, invalidExamples := [] }) =
      matchContains (Cell.str "5") "hello")
    ∧ (Filtering.evaluateCellFilter (Cell.str "not a date") "before 2025-06-01" (some
        { inferredType := ColumnInferredType.date, confidence := 1, nonNullCount := 3,
          nullCount := 0, parseableCount := ⟨0, 2, 0⟩, invalidExamples := [] }) = false)
    ∧ (Filtering.evaluateCellFilter (Cell.str "2025-01-01") "hello" (some
        { inferredType := ColumnInferredType.date, confidence := 1, nonNullCount := 3,
          nullCount := 0, parseableCount := ⟨0, 2, 0⟩, invalidExamples := [] }) =
      matchContains (Cell.str "2025-01-01") "hello") := by
  refine ⟨?_, ?_, ?_, ?_⟩
  · exact typed_filter_fallback_spec.1 (Cell.str "abc") ">=10" _ rfl (by decide) (by decide)
  · exact typed_filter_fallback_spec.2.1 (Cell.str "5") "hello" _ 5 rfl (by decide) (by decide)
  · exact typed_filter_fallback_spec.2.2.1 (Cell.str "not a date") "before 2025-06-01" _
      rfl (by decide) (by decide)
  · exact typed_filter_fallback_spec.2.2.2.1 (Cell.str "2025-01-01") "hello" _
      1735689600000 rfl (by decide) (by decide)

/-- C8: type inference classifies each column by checking, in order, the
number-, date- and boolean-parseable ratios against the 0.98 threshold
(first one at or above wins, with that ratio as confidence); otherwise
`mixed` with confidence the best of the three ratios when that best is at
least 0.5, and `string` with confidence 1 minus the best ratio when it is
below 0.5; zero non-null cells give `empty` with confidence 1. The column
["1","2","3","4"] is classified `number` with confidence 1 and numeric
stats min 1, max 4, mean 5/2, and ["1","2","foo","4"] is `mixed`. -/
theorem type_inference_spec :
    (∀ pc : ParseableCount,
      Inference.pickInferredType 0 pc = (ColumnInferredType.empty, 1)) ∧
    (∀ (n : ℕ) (pc : ParseableCount), 0 < n →
      (Inference.TYPE_THRESHOLD ≤ (pc.number : ℚ) / (n : ℚ) →
        Inference.pickInferredType n pc =
          (ColumnInferredType.number, (pc.number : ℚ) / (n : ℚ))) ∧
      ((pc.number : ℚ) / (n : ℚ) < Inference.TYPE_THRESHOLD →
        Inference.TYPE_THRESHOLD ≤ (pc.date : ℚ) / (n : ℚ) →
        Inference.pickInferredType n pc =
          (ColumnInferredType.date, (pc.date : ℚ) / (n : ℚ))) ∧
      ((pc.number : ℚ) / (n : ℚ) < Inference.TYPE_THRESHOLD →
        (pc.date : ℚ) / (n : ℚ) < Inference.TYPE_THRESHOLD →
        Inference.TYPE_THRESHOLD ≤ (pc.boolean : ℚ) / (n : ℚ) →
        Inference.pickInferredType n pc =
          (ColumnInferredType.boolean, (pc.boolean : ℚ) / (n : ℚ))) ∧
      ((pc.number : ℚ) / (n : ℚ) < Inference.TYPE_THRESHOLD →
        (pc.date : ℚ) / (n : ℚ) < Inference.TYPE_THRESHOLD →
        (pc.boolean : ℚ) / (n : ℚ) < Inference.TYPE_THRESHOLD →
        (1 : ℚ) / 2 ≤
          max (max ((pc.number : ℚ) / (n : ℚ)) ((pc.date : ℚ) / (n : ℚ)))
            ((pc.boolean : ℚ) / (n : ℚ)) →
        Inference.pickInferredType n pc =
          (ColumnInferredType.mixed,
            max (max ((pc.number : ℚ) / (n : ℚ)) ((pc.date : ℚ) / (n : ℚ)))
              ((pc.boolean : ℚ) / (n : ℚ)))) ∧
      ((pc.number : ℚ) / (n : ℚ) < Inference.TYPE_THRESHOLD →
        (pc.date : ℚ) / (n : ℚ) < Inference.TYPE_THRESHOLD →
        (pc.boolean : ℚ) / (n : ℚ) < Inference.TYPE_THRESHOLD →
        max (max ((pc.number : ℚ) / (n : ℚ)) ((pc.date : ℚ) / (n : ℚ)))
            ((pc.boolean : ℚ) / (n : ℚ)) < (1 : ℚ) / 2 →
        Inference.pickInferredType n pc =
          (ColumnInferredType.string,
            1 - max (max ((pc.number : ℚ) / (n : ℚ)) ((pc.date : ℚ) / (n : ℚ)))
              ((pc.boolean : ℚ) / (n : ℚ))))) ∧
    (Inference.inferColumnProfiles ["c"]
        [[Cell.str "1"], [Cell.str "2"], [Cell.str "3"], [Cell.str "4"]] =
      [{ inferredType := ColumnInferredType.number
         confidence := 1
         nonNullCount := 4
         nullCount := 0
         parseableCount := { number := 4, date := 0, boolean := 1 }
         invalidExamples := []
         numericStats := some { min := 1, max := 4, mean := 5 / 2 }
         dateStats := none }]) ∧
    (Inference.inferColumnProfiles ["c"]
        [[Cell.str "1"], [Cell.str "2"], [Cell.str "foo"], [Cell.str "4"]] =
      [{ inferredType := ColumnInferredType.mixed
         confidence := 3 / 4
         nonNullCount := 4
         nullCount := 0
         parseableCount := { number := 3, date := 0, boolean := 1 }
         invalidExamples := ["foo"]
         numericStats := none
         dateStats := none }]) := by
  refine ⟨?_, ?_, by decide, by decide⟩
  · intro pc
    unfold Inference.pickInferredType
    rw [if_pos rfl]
  · intro n pc hn
    have hne : n ≠ 0 := by omega
    refine ⟨?_, ?_, ?_, ?_, ?_⟩
    · intro h1
      unfold Inference.pickInferredType
      rw [if_neg hne]
      dsimp only
      rw [if_pos h1]
    · intro h1 h2
      unfold Inference.pickInferredType
      rw [if_neg hne]
      dsimp only
      rw [if_neg (not_le.mpr h1), if_pos h2]
    · intro h1 h2 h3
      unfold Inference.pickInferredType
      rw [if_neg hne]
      dsimp only
      rw [if_neg (not_le.mpr h1), if_neg (not_le.mpr h2), if_pos h3]
    · intro h1 h2 h3 h4
      unfold Inference.pickInferredType
      rw [if_neg hne]
      dsimp only
      rw [if_neg (not_le.mpr h1), if_neg (not_le.mpr h2), if_neg (not_le.mpr h3)]
      rw [if_pos h4]
    · intro h1 h2 h3 h4
      unfold Inference.pickInferredType
      rw [if_neg hne]
      dsimp only
      rw [if_neg (not_le.mpr h1), if_neg (not_le.mpr h2), if_neg (not_le.mpr h3)]
      rw [if_neg (not_le.mpr h4)]

/-- Witness: the threshold branches of `type_inference_spec` fire at
concrete counts — 2/2 numbers give `number`, 1/2 gives `mixed` with
confidence 1/2, 1/3 gives `string` with confidence 2/3. -/
theorem type_inference_spec_witness :
    Inference.pickInferredType 0 { number := 0, date := 0, boolean := 0 } =
      (ColumnInferredType.empty, 1) ∧
    Inference.pickInferredType 2 { number := 2, date := 0, boolean := 1 } =
      (ColumnInferredType.number, 1) ∧
    Inference.pickInferredType 2 { number := 1, date := 0, boolean := 1 } =
      (ColumnInferredType.mixed, 1 / 2) ∧
    Inference.pickInferredType 3 { number := 1, date := 0, boolean := 1 } =
      (ColumnInferredType.string, 2 / 3) :=
  ⟨type_inference_spec.1 { number := 0, date := 0, boolean := 0 },
   ((type_inference_spec.2.1 2 { number := 2, date := 0, boolean := 1 }
      (by decide)).1 (by decide)).trans (by decide),
   ((type_inference_spec.2.1 2 { number := 1, date := 0, boolean := 1 }
      (by decide)).2.2.2.1 (by decide) (by decide) (by decide)
      (by decide)).trans (by decide),
   ((type_inference_spec.2.1 3 { number := 1, date := 0, boolean := 1 }
      (by decide)).2.2.2.2 (by decide) (by decide) (by decide)
      (by decide)).trans (by decide)⟩

end RatEval

end EasyCsv
